import Mathlib

/-!
# zif: resolution, peer sessions, mirroring, seed gossip and exploration

A shallow embedding of `localpeer.go`, `peer.go` and `seedmanager.go`.

Go values are modelled as follows.

* A Go result pair `(v, err)` is a `Res`: `ok v` when `err == nil`, `error msg`
  when an error is returned, and `panic msg` when the Go code would panic at run
  time (nil dereference, slice bounds out of range).
* The recursion of `resolveStep` has no measure in the source; the model carries a
  fuel argument and returns `none` when the fuel runs out, so `none` stands for a
  call that has not returned.
* Packages that are not part of the sources (`dht`, `proto`, `data`, `util`, the
  transport) appear as the fields of `Net`: every function of the model is
  parametric in them.
* Effects that are visible from outside (dials, remote requests, stream opening
  and closing, DHT accesses, progress events, blocks handed to the store) are
  appended to `Sys.trace`; `Sys.streams` counts the streams that are open.
-/

namespace Zif

/-! ## Data model -/

/-- Go type `dht.Address`; `Equals` is equality. -/
abbrev dht.Address := Nat

/-- Serialised bytes (`[]byte`). -/
abbrev Payload := List Nat

/-- Go type `dht.KeyValue`: an address key and an opaque payload. -/
structure dht.KeyValue where
  key : dht.Address
  value : Payload
deriving DecidableEq, Repr

/-- Go function `dht.NewKeyValue`. -/
def dht.NewKeyValue (key : dht.Address) (value : Payload) : dht.KeyValue :=
  { key := key, value := value }

/-- State of the local routing table; its operations are fields of `Net`. -/
abbrev dht.DHT := List dht.KeyValue

/-- Go type `proto.Entry`. -/
structure proto.Entry where
  Address : dht.Address
  PublicKey : List Nat
  PublicAddress : String
  Port : Int
  PostCount : Int
  Seeds : List dht.Address
deriving DecidableEq, Repr

/-- Outcome of a Go call returning `(value, error)`. -/
inductive Res (α : Type) where
  | ok (a : α)
  | error (msg : String)
  | panic (msg : String)
deriving DecidableEq, Repr

/-- A logical stream of a session (`*proto.Client`), named by the handle that opened it. -/
structure Stream where
  peer : Nat
deriving DecidableEq, Repr

/-- Go type `data.Piece`, reduced to its content. -/
abbrev Piece := List Nat

/-- The collection manifest returned by `stream.Collection`. `HashList` stands for the
bytes of the Go slice up to its capacity, which is what a slice expression may reach. -/
structure MessageCollection where
  HashList : List Nat
  Size : Nat
deriving DecidableEq, Repr

/-- Externally visible effects. -/
inductive Event where
  | dial (endpoint : String)
  | connectClient (peer : Nat)
  | openStream (peer : Nat)
  | closeStream (peer : Nat)
  | query (peer : Nat) (target : String)
  | findClosest (peer : Nat) (target : String)
  | dhtQuery (target : dht.Address)
  | dhtFindClosest (target : dht.Address)
  | dhtInsert (kv : dht.KeyValue)
  | collection (peer : Nat) (address : dht.Address)
  | saveCollection (address : dht.Address)
  | pieces (peer : Nat) (address : dht.Address) (since : Nat) (size : Nat)
  | progress (i : Nat)
  | storePiece (piece : Piece)
  | requestAddPeer (peer : Nat) (addr : String)
  | addPeerRequest (peer : Nat) (addr : String)
deriving DecidableEq, Repr

/-- Instrumentation: the effects so far, the number of open streams and the
allocation counter that gives every new `Peer` object its identity. -/
structure Sys where
  trace : List Event
  streams : Nat
  nextPeer : Nat
deriving DecidableEq, Repr

/-- Records an effect. -/
def Sys.log (sys : Sys) (ev : Event) : Sys :=
  { sys with trace := sys.trace ++ [ev] }

/-- Go type `Peer`. `id` is the identity of the Go object (pointer equality), `conn` the
endpoint the stream manager is connected to (`none` for a zero `Peer`). -/
structure Peer where
  id : Nat
  address : dht.Address
  publicKey : List Nat
  conn : Option String
  entry : Option proto.Entry
  seed : Bool
  seedFor : Option proto.Entry
  Socks : Bool
  SocksPort : Int
deriving DecidableEq, Repr

/-- Go type `LocalPeer` (the fields used by the functions below). -/
structure LocalPeer where
  address : dht.Address
  Entry : proto.Entry
  DHT : dht.DHT
  Peers : List (String × Peer)
  PublicToZif : List (String × String)
  Socks : Bool
  SocksPort : Int
deriving DecidableEq, Repr

/-- The collaborators whose code is not part of the sources. -/
structure Net where
  /-- Go method `dht.Address.String` (the callers drop its error). -/
  AddressString : dht.Address → String
  /-- Go function `dht.DecodeAddress`. -/
  DecodeAddress : String → dht.Address
  /-- Go function `proto.JsonToEntry`. -/
  JsonToEntry : Payload → Except String proto.Entry
  /-- Go method `proto.Entry.Json` (the callers drop its error). -/
  EntryJson : proto.Entry → Payload
  /-- Go method `dht.DHT.Query`. -/
  dhtQuery : dht.DHT → dht.Address → Except String (Option dht.KeyValue)
  /-- Go method `dht.DHT.FindClosest`. -/
  dhtFindClosest : dht.DHT → dht.Address → Except String (List dht.KeyValue)
  /-- Go method `dht.DHT.Insert`. -/
  dhtInsert : dht.DHT → dht.KeyValue → dht.DHT
  /-- Go method `dht.DHT.Has`. -/
  dhtHas : dht.DHT → dht.Address → Bool
  /-- Go method `StreamManager.OpenTCP` at an endpoint: dial and handshake, yielding
  the entry of the remote peer. -/
  OpenTCP : String → Except String proto.Entry
  /-- Liveness of the session to an endpoint, as `Peer.CheckConnection` finds it. -/
  sessionCheck : String → Except String Unit
  /-- Go method `StreamManager.OpenStream` on the session to an endpoint. -/
  streamsOpenStream : String → Except String Unit
  /-- Answer of the peer at an endpoint to `stream.Query`. -/
  streamQuery : String → String → Except String (Option dht.KeyValue)
  /-- Answer of the peer at an endpoint to `stream.FindClosest`. -/
  streamFindClosest : String → String → Except String (List dht.KeyValue)
  /-- Answer of the peer at an endpoint to `stream.Collection`. -/
  streamCollection : String → dht.Address → List Nat → Except String MessageCollection
  /-- Content of the channel returned by `stream.Pieces address since size`. -/
  streamPieces : String → dht.Address → Nat → Nat → List Piece
  /-- Answer of the peer at an endpoint to `stream.RequestAddPeer`. -/
  streamRequestAddPeer : String → String → Except String Unit
  /-- Go method `data.Piece.Hash`. -/
  PieceHash : Piece → List Nat
  /-- Go constant `data.PieceSize`. -/
  PieceSize : Nat

/-! ## Concurrent maps -/

/-- Go method `cmap.ConcurrentMap.Get`. -/
def cmapGet {α : Type} : List (String × α) → String → Option α
  | [], _ => none
  | (k, v) :: rest, key => if k = key then some v else cmapGet rest key

/-- Go method `cmap.ConcurrentMap.Set`: replaces the value of a present key, adds an
absent one. -/
def cmapSet {α : Type} : List (String × α) → String → α → List (String × α)
  | [], key, val => [(key, val)]
  | (k, v) :: rest, key, val =>
    if k = key then (k, val) :: rest else (k, v) :: cmapSet rest key val

/-! ## peer.go -/

/-- Go method `Peer.CheckConnection`. -/
def Peer.CheckConnection (net : Net) (p : Peer) : Except String Unit :=
  match p.conn with
  | none => .error "No session"
  | some ep => net.sessionCheck ep

/-- Go method `Peer.OpenStream`. -/
def Peer.OpenStream (net : Net) (p : Peer) (sys : Sys) : Res Stream × Sys :=
  match p.CheckConnection net with
  | .error err => (.error err, sys)
  | .ok _ =>
    match p.conn with
    | none => (.error "No session", sys)
    | some ep =>
      match net.streamsOpenStream ep with
      | .error err => (.error err, sys)
      | .ok _ =>
        (.ok { peer := p.id },
          { (sys.log (.openStream p.id)) with streams := sys.streams + 1 })

/-- Go method `Close` of a stream. -/
def Stream.Close (s : Stream) (sys : Sys) : Sys :=
  { (sys.log (.closeStream s.peer)) with streams := sys.streams - 1 }

/-- Go method `Peer.Query`. The result is the returned stream (`none` for nil) and
the pair `(kv, err)`. The error of `OpenStream` is dropped by the source, and the
request on a nil stream is a nil dereference. -/
def Peer.Query (net : Net) (p : Peer) (address : String) (sys : Sys) :
    Option Stream × Res (Option dht.KeyValue) × Sys :=
  match p.CheckConnection net with
  | .error err => (none, .error err, sys)
  | .ok _ =>
    match p.OpenStream net sys, p.conn with
    | (.ok stream, sys1), some ep =>
      let sys2 := sys1.log (.query p.id address)
      match net.streamQuery ep address with
      | .ok kv => (some stream, .ok kv, sys2)
      | .error err => (some stream, .error err, sys2)
    | (_, sys1), _ => (none, .panic "nil stream", sys1)

/-- Go method `Peer.FindClosest`, shaped like `Peer.Query`. -/
def Peer.FindClosest (net : Net) (p : Peer) (address : String) (sys : Sys) :
    Option Stream × Res (List dht.KeyValue) × Sys :=
  match p.CheckConnection net with
  | .error err => (none, .error err, sys)
  | .ok _ =>
    match p.OpenStream net sys, p.conn with
    | (.ok stream, sys1), some ep =>
      let sys2 := sys1.log (.findClosest p.id address)
      match net.streamFindClosest ep address with
      | .ok res => (some stream, .ok res, sys2)
      | .error err => (some stream, .error err, sys2)
    | (_, sys1), _ => (none, .panic "nil stream", sys1)

/-- Go method `Peer.Connect`: dial, take over the identity of the remote entry and
insert that entry into the local DHT. -/
def Peer.Connect (net : Net) (p : Peer) (addr : String) (lp : LocalPeer) (sys : Sys) :
    Option String × Peer × LocalPeer × Sys :=
  let sys1 := sys.log (.dial addr)
  match net.OpenTCP addr with
  | .error err => (some err, p, lp, sys1)
  | .ok pairEntry =>
    let p1 : Peer :=
      { p with publicKey := pairEntry.PublicKey, address := pairEntry.Address,
               conn := some addr }
    let kv := dht.NewKeyValue pairEntry.Address (net.EntryJson pairEntry)
    (none, p1, { lp with DHT := net.dhtInsert lp.DHT kv }, sys1.log (.dhtInsert kv))

/-- Go method `Peer.Entry`. Once the stream is there, `defer client.Close()` closes it
on every later exit. A nil `kv` (a miss) makes `kv.Value()` a nil dereference. -/
def Peer.Entry (net : Net) (p : Peer) (sys : Sys) : Res proto.Entry × Peer × Sys :=
  match p.CheckConnection net with
  | .error err => (.error err, p, sys)
  | .ok _ =>
    match p.entry with
    | some cached => (.ok cached, p, sys)
    | none =>
      let s := net.AddressString p.address
      match p.Query net s sys with
      | (_, .error err, sys1) => (.error err, p, sys1)
      | (_, .panic msg, sys1) => (.panic msg, p, sys1)
      | (none, .ok _, sys1) => (.panic "nil stream", p, sys1)
      | (some client, .ok none, sys1) => (.panic "nil KeyValue", p, client.Close sys1)
      | (some client, .ok (some kv), sys1) =>
        match net.JsonToEntry kv.value with
        | .error err => (.error err, p, client.Close sys1)
        | .ok entry =>
          if entry.Address ≠ p.address then
            (.error "Failed to fetch entry", p, client.Close sys1)
          else
            (.ok entry, { p with entry := some entry }, client.Close sys1)

/-- Go method `Peer.RequestAddPeer`. The call itself is recorded as
`Event.requestAddPeer`, the request sent on the stream as `Event.addPeerRequest`. -/
def Peer.RequestAddPeer (net : Net) (p : Peer) (addr : String) (sys : Sys) :
    Res Stream × Sys :=
  let sys0 := sys.log (.requestAddPeer p.id addr)
  match p.CheckConnection net with
  | .error err => (.error err, sys0)
  | .ok _ =>
    match p.OpenStream net sys0, p.conn with
    | (.ok stream, sys1), some ep =>
      let sys2 := sys1.log (.addPeerRequest p.id addr)
      match net.streamRequestAddPeer ep addr with
      | .ok _ => (.ok stream, sys2)
      | .error err => (.error err, sys2)
    | (.error err, sys1), _ => (.error err, sys1)
    | (.panic msg, sys1), _ => (.panic msg, sys1)
    | (.ok _, sys1), none => (.error "No session", sys1)

/-- The Go slice expression `b[lo:hi]`; `none` is the run-time panic. -/
def sliceBytes (b : List Nat) (lo hi : Nat) : Option (List Nat) :=
  if lo ≤ hi ∧ hi ≤ b.length then some ((b.drop lo).take (hi - lo)) else none

/-- The loop `for piece := range piece_stream` of `Peer.Mirror`, started with counter
`i`. A verified block yields `onPiece <- i` and then `pieces <- piece`. -/
def mirrorLoop (net : Net) (HashList : List Nat) : List Piece → Nat → Sys → Res Unit × Sys
  | [], _, sys => (.ok (), sys)
  | piece :: rest, i, sys =>
    let hash := net.PieceHash piece
    match sliceBytes HashList (32 * i) (32 * i + 32) with
    | none => (.panic "slice bounds out of range", sys)
    | some expected =>
      if expected ≠ hash then (.error "Piece hash mismatch", sys)
      else mirrorLoop net HashList rest (i + 1) ((sys.log (.progress i)).log (.storePiece piece))

/-- The value `int(math.Ceil(float64(a) / float64(b)))` for `b > 0` (the float64
quotient is exact enough for counts below `2^53`). -/
def ceilDiv (a b : Nat) : Nat := (a + b - 1) / b

/-- Where the first part of `Peer.Mirror` ends: either the call has returned
(`done`), or the manifest is there and blocks have to be fetched (`transfer`). -/
inductive MirrorSetup where
  | done (r : Res Stream) (p : Peer) (sys : Sys)
  | transfer (stream : Stream) (ep : String) (p1 : Peer) (entry : proto.Entry)
      (mcol : MessageCollection) (sys : Sys)
deriving DecidableEq, Repr

/-- Go method `Peer.Mirror` up to and including the comparison of the post counts;
`dbPostCount` is `db.PostCount()`. -/
def Peer.mirrorSetup (net : Net) (p : Peer) (dbPostCount : Nat) (sys : Sys) : MirrorSetup :=
  match p.CheckConnection net with
  | .error err => .done (.error err) p sys
  | .ok _ =>
    match p.OpenStream net sys, p.conn with
    | (.error err, sys1), _ => .done (.error err) p sys1
    | (.panic msg, sys1), _ => .done (.panic msg) p sys1
    | (.ok _, sys1), none => .done (.error "No session") p sys1
    | (.ok stream, sys1), some ep =>
      -- var entry *proto.Entry; if p.seed { entry = p.seedFor } else { entry, err = p.Entry() }
      let fetched : Res (Option proto.Entry) × Peer × Sys :=
        if p.seed then (.ok p.seedFor, p, sys1)
        else
          match p.Entry net sys1 with
          | (.ok e, p1, sys2) => (.ok (some e), p1, sys2)
          | (.error err, p1, sys2) => (.error err, p1, sys2)
          | (.panic msg, p1, sys2) => (.panic msg, p1, sys2)
      match fetched with
      | (.error err, p1, sys2) => .done (.error err) p1 sys2
      | (.panic msg, p1, sys2) => .done (.panic msg) p1 sys2
      | (.ok none, p1, sys2) => .done (.panic "nil Entry") p1 sys2
      | (.ok (some entry), p1, sys2) =>
        let sys3 := sys2.log (.collection p1.id entry.Address)
        match net.streamCollection ep entry.Address entry.PublicKey with
        | .error err => .done (.error err) p1 sys3
        | .ok mcol =>
          let sys4 := sys3.log (.saveCollection entry.Address)
          -- if int(db.PostCount()) == p.entry.PostCount
          match p1.entry with
          | none => .done (.panic "nil Entry") p1 sys4
          | some own =>
            if (dbPostCount : Int) = own.PostCount then .done (.ok stream) p1 sys4
            else .transfer stream ep p1 entry mcol sys4

/-- The index `since` of the first block `Peer.Mirror` asks for. -/
def mirrorSince (net : Net) (dbPostCount : Nat) : Nat :=
  let currentStore := ceilDiv dbPostCount net.PieceSize
  if currentStore ≠ 0 then currentStore - 1 else 0

/-- Go method `Peer.Mirror` from the request of the piece stream to the end. -/
def Peer.mirrorTransfer (net : Net) (dbPostCount : Nat) (stream : Stream) (ep : String)
    (p1 : Peer) (entry : proto.Entry) (mcol : MessageCollection) (sys4 : Sys) :
    Res Stream × Peer × Sys :=
  let since := mirrorSince net dbPostCount
  let sys5 := sys4.log (.pieces p1.id entry.Address since mcol.Size)
  let piece_stream := net.streamPieces ep entry.Address since mcol.Size
  match mirrorLoop net mcol.HashList piece_stream 0 sys5 with
  | (.error err, sys6) => (.error err, p1, sys6)
  | (.panic msg, sys6) => (.panic msg, p1, sys6)
  | (.ok _, sys6) =>
    -- p.RequestAddPeer(s), result dropped
    match p1.RequestAddPeer net (net.AddressString p1.address) sys6 with
    | (.panic msg, sys7) => (.panic msg, p1, sys7)
    | (_, sys7) => (.ok stream, p1, sys7)

/-- Go method `Peer.Mirror`. The progress events (`onPiece`) and the blocks sent to
the store (`pieces`) are in the trace. -/
def Peer.Mirror (net : Net) (p : Peer) (dbPostCount : Nat) (sys : Sys) :
    Res Stream × Peer × Sys :=
  match p.mirrorSetup net dbPostCount sys with
  | .done r p1 sys1 => (r, p1, sys1)
  | .transfer stream ep p1 entry mcol sys4 =>
    Peer.mirrorTransfer net dbPostCount stream ep p1 entry mcol sys4

/-! ## localpeer.go -/

/-- Go method `LocalPeer.GetPeer`. -/
def LocalPeer.GetPeer (lp : LocalPeer) (addr : String) : Option Peer :=
  cmapGet lp.Peers addr

/-- Go method `LocalPeer.ConnectPeerDirect`. -/
def LocalPeer.ConnectPeerDirect (net : Net) (lp : LocalPeer) (sys : Sys) (addr : String) :
    Res Peer × LocalPeer × Sys :=
  match lp.GetPeer addr with
  | some peer => (.ok peer, lp, sys)
  | none =>
    -- peer = &Peer{}
    let peer0 : Peer :=
      { id := sys.nextPeer, address := 0, publicKey := [], conn := none, entry := none,
        seed := false, seedFor := none,
        Socks := lp.Socks, SocksPort := if lp.Socks then lp.SocksPort else 0 }
    let sys0 : Sys := { sys with nextPeer := sys.nextPeer + 1 }
    match peer0.Connect net addr lp sys0 with
    | (some err, _, lp1, sys1) => (.error err, lp1, sys1)
    | (none, peer, lp1, sys1) =>
      -- peer.ConnectClient(lp), result dropped
      let sys2 := sys1.log (.connectClient peer.id)
      let s := net.AddressString peer.address
      (.ok peer,
        { lp1 with Peers := cmapSet lp1.Peers s peer,
                   PublicToZif := cmapSet lp1.PublicToZif addr s },
        sys2)

/-- The endpoint `fmt.Sprintf("%s:%d", e.PublicAddress, e.Port)`. -/
def endpointOf (e : proto.Entry) : String :=
  e.PublicAddress ++ ":" ++ toString e.Port

/-- The first lines of `resolveStep`: the handle registered under the address of `e`,
or else a connection to the endpoint of `e`. -/
def LocalPeer.stepPeer (net : Net) (lp : LocalPeer) (sys : Sys) (e : proto.Entry) :
    Res Peer × LocalPeer × Sys :=
  let es := net.AddressString e.Address
  match lp.GetPeer es with
  | some peer => (.ok peer, lp, sys)
  | none => lp.ConnectPeerDirect net sys (endpointOf e)

/-- The loop `for _, i := range closest` of `resolveStep`; `step` is the recursive
call. A candidate whose payload does not decode is skipped, a step that returns an
entry ends the loop with the candidate's own entry (`i.Value()` decoded a second
time), every other returned step is ignored. -/
def resolveStepLoop (net : Net)
    (step : LocalPeer → Sys → proto.Entry → dht.Address →
      Option (Res proto.Entry × LocalPeer × Sys))
    (addr : dht.Address) :
    List dht.KeyValue → LocalPeer → Sys → Option (Res proto.Entry × LocalPeer × Sys)
  | [], lp, sys => some (.error "No entries could be found", lp, sys)
  | i :: rest, lp, sys =>
    match net.JsonToEntry i.value with
    | .error _ => resolveStepLoop net step addr rest lp sys
    | .ok entry =>
      match step lp sys entry addr with
      | none => none
      | some (.ok _, lp1, sys1) => some (.ok entry, lp1, sys1)
      | some (.panic msg, lp1, sys1) => some (.panic msg, lp1, sys1)
      | some (.error _, lp1, sys1) => resolveStepLoop net step addr rest lp1 sys1

/-- Go method `LocalPeer.resolveStep`. -/
def LocalPeer.resolveStep (net : Net) :
    Nat → LocalPeer → Sys → proto.Entry → dht.Address →
      Option (Res proto.Entry × LocalPeer × Sys)
  | 0, _, _, _, _ => none
  | fuel + 1, lp, sys, e, addr =>
    match lp.stepPeer net sys e with
    | (.error err, lp1, sys1) => some (.error err, lp1, sys1)
    | (.panic msg, lp1, sys1) => some (.panic msg, lp1, sys1)
    | (.ok peer, lp1, sys1) =>
      let s := net.AddressString addr
      match peer.Query net s sys1 with
      | (_, .error err, sys2) => some (.error err, lp1, sys2)
      | (_, .panic msg, sys2) => some (.panic msg, lp1, sys2)
      | (none, .ok _, sys2) => some (.panic "nil stream", lp1, sys2)
      | (some client, .ok (some kv), sys2) =>
        let sys3 := client.Close sys2
        match net.JsonToEntry kv.value with
        | .ok entry => some (.ok entry, lp1, sys3)
        | .error err => some (.error err, lp1, sys3)
      | (some client, .ok none, sys2) =>
        let sys3 := client.Close sys2
        match peer.FindClosest net s sys3 with
        | (_, .error err, sys4) => some (.error err, lp1, sys4)
        | (_, .panic msg, sys4) => some (.panic msg, lp1, sys4)
        | (none, .ok _, sys4) => some (.panic "nil stream", lp1, sys4)
        | (some client2, .ok closest, sys4) =>
          let sys5 := client2.Close sys4
          resolveStepLoop net (LocalPeer.resolveStep net fuel) addr closest lp1 sys5

/-- The loop `for _, i := range closest` of `Resolve`. -/
def resolveLoop (net : Net)
    (step : LocalPeer → Sys → proto.Entry → dht.Address →
      Option (Res proto.Entry × LocalPeer × Sys))
    (address : dht.Address) :
    List dht.KeyValue → LocalPeer → Sys → Option (Res proto.Entry × LocalPeer × Sys)
  | [], lp, sys => some (.error "Address could not be resolved", lp, sys)
  | i :: rest, lp, sys =>
    match net.JsonToEntry i.value with
    | .error _ => resolveLoop net step address rest lp sys
    | .ok e =>
      match step lp sys e address with
      | none => none
      | some (.panic msg, lp1, sys1) => some (.panic msg, lp1, sys1)
      | some (.error _, lp1, sys1) => resolveLoop net step address rest lp1 sys1
      | some (.ok entry, lp1, sys1) =>
        if entry.Address = address then some (.ok entry, lp1, sys1)
        else resolveLoop net step address rest lp1 sys1

/-- Go method `LocalPeer.Resolve`. -/
def LocalPeer.Resolve (net : Net) (fuel : Nat) (lp : LocalPeer) (sys : Sys) (addr : String) :
    Option (Res proto.Entry × LocalPeer × Sys) :=
  let lps := net.AddressString lp.address
  if addr = lps then some (.ok lp.Entry, lp, sys)
  else
    let address := net.DecodeAddress addr
    let sys1 := sys.log (.dhtQuery address)
    match net.dhtQuery lp.DHT address with
    | .error err => some (.error err, lp, sys1)
    | .ok (some kv) =>
      match net.JsonToEntry kv.value with
      | .ok entry => some (.ok entry, lp, sys1)
      | .error err => some (.error err, lp, sys1)
    | .ok none =>
      let sys2 := sys1.log (.dhtFindClosest address)
      match net.dhtFindClosest lp.DHT address with
      | .error err => some (.error err, lp, sys2)
      | .ok closest =>
        resolveLoop net (LocalPeer.resolveStep net fuel) address closest lp sys2

/-- The body of the loop `for i := range ret` in the goroutine of `StartExploring`, for
one `KeyValue` delivered by the explore job; `queue` is the content of the channel
`in`. `DHT.Has` reads the table, `DHT.Insert` is recorded in the trace, and `in <- i`
appends to the queue. -/
def LocalPeer.exploreStep (net : Net) (lp : LocalPeer) (sys : Sys)
    (queue : List dht.KeyValue) (i : dht.KeyValue) :
    LocalPeer × Sys × List dht.KeyValue :=
  let has := net.dhtHas lp.DHT i.key
  if i.key = lp.address then (lp, sys, queue)
  else
    -- reinsert regardless of whether we have it or not
    let lp1 : LocalPeer := { lp with DHT := net.dhtInsert lp.DHT i }
    let sys1 := sys.log (.dhtInsert i)
    if !has then (lp1, sys1, queue ++ [i]) else (lp1, sys1, queue)

/-- The loop `for i := range ret` of `StartExploring` over the values the explore job
delivers, in order. -/
def LocalPeer.exploreLoop (net : Net) :
    List dht.KeyValue → LocalPeer → Sys → List dht.KeyValue →
      LocalPeer × Sys × List dht.KeyValue
  | [], lp, sys, queue => (lp, sys, queue)
  | i :: rest, lp, sys, queue =>
    match lp.exploreStep net sys queue i with
    | (lp1, sys1, queue1) => LocalPeer.exploreLoop net rest lp1 sys1 queue1

/-- The loop `for _, i := range closest` of `seedExplore`: every record whose key is
not the local address is sent on the channel. -/
def seedExploreLoop (address : dht.Address) :
    List dht.KeyValue → List dht.KeyValue → List dht.KeyValue
  | [], queue => queue
  | i :: rest, queue =>
    if ¬ (i.key = address) then seedExploreLoop address rest (queue ++ [i])
    else seedExploreLoop address rest queue

/-- Go method `LocalPeer.seedExplore`; `random` is the result of `dht.RandomAddress()`
(`none` for nil, whose dereference panics), `queue` the content of the channel `in`.
An error of the first `FindClosest` panics, an error of the second is dropped and
leaves nothing to append. -/
def LocalPeer.seedExplore (net : Net) (lp : LocalPeer) (sys : Sys)
    (random : Option dht.Address) (queue : List dht.KeyValue) :
    Res (List dht.KeyValue) × Sys :=
  let sys1 := sys.log (.dhtFindClosest lp.address)
  match net.dhtFindClosest lp.DHT lp.address with
  | .error err => (.panic err, sys1)
  | .ok closest =>
    match random with
    | none => (.panic "nil Address", sys1)
    | some addr =>
      let sys2 := sys1.log (.dhtFindClosest addr)
      let closestRand : List dht.KeyValue :=
        match net.dhtFindClosest lp.DHT addr with
        | .ok res => res
        | .error _ => []
      (.ok (seedExploreLoop lp.address (closest ++ closestRand) queue), sys2)

/-! ## seedmanager.go -/

/-- The collaborators of `SeedManager.findSeeds`, none of which is part of the sources
in the form this file calls them. -/
structure SeedEnv where
  /-- Go method `LocalPeer.QueryEntry`. -/
  QueryEntry : dht.Address → Except String proto.Entry
  /-- Go method `dht.Address.String`. -/
  AddressString : dht.Address → Except String String
  /-- Go method `LocalPeer.ConnectPeer` in its three-result form: the entry of the
  peer that was reached. -/
  ConnectPeer : dht.Address → Except String proto.Entry
  /-- Answer of the seed at an address to `peer.Query(tracked)`. -/
  peerQuery : dht.Address → dht.Address → Except String proto.Entry
  /-- Go function `util.MergeSeeds`. -/
  MergeSeeds : List dht.Address → List dht.Address → List dht.Address
  /-- Go method `proto.Entry.Encode`. -/
  Encode : proto.Entry → Except String Payload
  /-- Go method `dht.DHT.Insert`. -/
  dhtInsert : dht.DHT → dht.KeyValue → dht.DHT

/-- Go type `SeedManager` together with the DHT of its local peer and the record of
the `DHT.Insert` calls made so far. -/
structure SeedManager where
  localAddress : dht.Address
  track : dht.Address
  entry : proto.Entry
  DHT : dht.DHT
  inserts : List dht.KeyValue
deriving DecidableEq, Repr

/-- The part of the loop body of `find` that follows a successful `peer.Query`:
merge, compare the lengths, replace and persist. -/
def SeedManager.mergeResult (env : SeedEnv) (sm : SeedManager) (qResult : proto.Entry) :
    SeedManager :=
  let result := env.MergeSeeds sm.entry.Seeds qResult.Seeds
  if result.length ≠ sm.entry.Seeds.length then
    let sm1 : SeedManager := { sm with entry := { sm.entry with Seeds := result } }
    match env.Encode sm1.entry with
    | .error _ => sm1
    | .ok encoded =>
      let kv := dht.NewKeyValue sm1.entry.Address encoded
      { sm1 with DHT := env.dhtInsert sm1.DHT kv, inserts := sm1.inserts ++ [kv] }
  else sm

/-- One iteration of `for _, i := range sm.entry.Seeds` in `find`. -/
def SeedManager.findStep (env : SeedEnv) (sm : SeedManager) (i : dht.Address) : SeedManager :=
  if i = sm.localAddress then sm
  else
    match env.AddressString i with
    | .error _ => sm
    | .ok _ =>
      match env.ConnectPeer i with
      | .error _ => sm
      | .ok entry =>
        match env.AddressString entry.Address with
        | .error _ => sm
        | .ok _ =>
          match env.peerQuery i sm.entry.Address with
          | .error _ => sm
          | .ok qResult => sm.mergeResult env qResult

/-- The closure `find` of `SeedManager.findSeeds`: one tick. The range expression is
evaluated once, so the loop runs over the seed list fetched at the start of the tick. -/
def SeedManager.find (env : SeedEnv) (sm : SeedManager) : SeedManager :=
  match env.QueryEntry sm.track with
  | .error _ => sm
  | .ok entry =>
    let sm1 : SeedManager := { sm with entry := entry }
    sm1.entry.Seeds.foldl (SeedManager.findStep env) sm1

/-- Modelled from the spec: `util.MergeSeeds` is not among the sources. The spec has
the two seed lists merged by set union, deduplicated, a superset of the first list;
this keeps the first occurrence of every address in the order of arrival. -/
def MergeSeeds (a b : List dht.Address) : List dht.Address :=
  (a ++ b).foldl (fun acc x => if x ∈ acc then acc else acc ++ [x]) []

/-! ## Vocabulary of the statements -/

/-- The manifest slice of the block with index `index` of the remote collection: the 32
bytes at offset `32 * index` of the hash list, absent when the hash list is too
short. -/
def manifestSlice (HashList : List Nat) (index : Nat) : Option (List Nat) :=
  sliceBytes HashList (32 * index) (32 * index + 32)

/-- Position, counted from `j`, of the first received block whose hash differs from its
manifest slice; the block received at position `j` is block `since + j` of the remote
collection. -/
def firstBadFrom (net : Net) (HashList : List Nat) (since : Nat) :
    List Piece → Nat → Option Nat
  | [], _ => none
  | piece :: rest, j =>
    if manifestSlice HashList (since + j) = some (net.PieceHash piece) then
      firstBadFrom net HashList since rest (j + 1)
    else some j

/-- Position of the first received block whose hash differs from its manifest slice,
for a piece stream requested from the index `since`. -/
def firstBad (net : Net) (HashList : List Nat) (since : Nat) (blocks : List Piece) :
    Option Nat :=
  firstBadFrom net HashList since blocks 0

/-- The progress event and the hand-over to the store of each block, in order, the
first block being numbered `j`. -/
def mirrorEvents : List Piece → Nat → List Event
  | [], _ => []
  | piece :: rest, j => .progress j :: .storePiece piece :: mirrorEvents rest (j + 1)

/-- The peer at the endpoint `ep` may be the one `resolveStep` talks to for the entry
`e`: `ep` is the endpoint of `e`, or the handshake at `ep` yields an address whose
string is the registry key `resolveStep` or `ConnectPeerDirect` looks up for `e`. -/
def Serves (net : Net) (ep : String) (e : proto.Entry) : Prop :=
  ep = endpointOf e ∨
  ∃ pe, net.OpenTCP ep = .ok pe ∧
    (net.AddressString pe.Address = net.AddressString e.Address ∨
      net.AddressString pe.Address = endpointOf e)

/-- Every registered handle is connected to an endpoint whose handshake yields the
address it is registered under. -/
def RegistryOk (net : Net) (lp : LocalPeer) : Prop :=
  ∀ key p, cmapGet lp.Peers key = some p →
    ∃ ep pe, p.conn = some ep ∧ net.OpenTCP ep = .ok pe ∧ net.AddressString pe.Address = key

/-- The closest-set answers for `target` are acyclic: `rank` strictly decreases from a
peer to every peer that serves an entry of its answer. -/
def Descends (net : Net) (target : String) (rank : String → Nat) : Prop :=
  ∀ ep cs kv e ep', net.streamFindClosest ep target = .ok cs → kv ∈ cs →
    net.JsonToEntry kv.value = .ok e → Serves net ep' e → rank ep' < rank ep

/-- The loop of `Resolve` passes over every candidate of the list, starting in the
state `lp`, `sys` and ending in the state `lp'`, `sys'`: each candidate has a payload
that does not decode, or a step that returns an error, or a step that returns an
entry whose address is not the target. -/
inductive Skipped (net : Net)
    (step : LocalPeer → Sys → proto.Entry → dht.Address →
      Option (Res proto.Entry × LocalPeer × Sys))
    (target : dht.Address) :
    List dht.KeyValue → LocalPeer → Sys → LocalPeer → Sys → Prop where
  | nil (lp : LocalPeer) (sys : Sys) : Skipped net step target [] lp sys lp sys
  | undecodable {c : dht.KeyValue} {rest : List dht.KeyValue} {lp lp' : LocalPeer}
      {sys sys' : Sys} {err : String} :
      net.JsonToEntry c.value = .error err →
      Skipped net step target rest lp sys lp' sys' →
      Skipped net step target (c :: rest) lp sys lp' sys'
  | stepError {c : dht.KeyValue} {rest : List dht.KeyValue} {lp lp1 lp' : LocalPeer}
      {sys sys1 sys' : Sys} {e : proto.Entry} {msg : String} :
      net.JsonToEntry c.value = .ok e →
      step lp sys e target = some (.error msg, lp1, sys1) →
      Skipped net step target rest lp1 sys1 lp' sys' →
      Skipped net step target (c :: rest) lp sys lp' sys'
  | noMatch {c : dht.KeyValue} {rest : List dht.KeyValue} {lp lp1 lp' : LocalPeer}
      {sys sys1 sys' : Sys} {e entry : proto.Entry} :
      net.JsonToEntry c.value = .ok e →
      step lp sys e target = some (.ok entry, lp1, sys1) →
      entry.Address ≠ target →
      Skipped net step target rest lp1 sys1 lp' sys' →
      Skipped net step target (c :: rest) lp sys lp' sys'

/-! ## Concrete networks

Small networks on which the functions above are evaluated. The local node has
address 1; a node with address `a` listens at `host:a`; the canonical string of an
address `a` is the letter `z` repeated `a` times; a payload `[a, port]` is the record
of the node with address `a` at `host:port`. -/

/-- The entry of the node with address `a`, listening at `host:a`. -/
def nodeEntry (a : Nat) : proto.Entry :=
  { Address := a, PublicKey := [], PublicAddress := "host", Port := a, PostCount := 0,
    Seeds := [] }

/-- Decoder of the demonstration payloads. -/
def demoDecode : Payload → Except String proto.Entry
  | [a, port] =>
    .ok { Address := a, PublicKey := [], PublicAddress := "host", Port := port,
          PostCount := 0, Seeds := [] }
  | _ => .error "invalid entry"

/-- A network of reachable nodes at `host:2` and `host:3` that hold no record and know
no other node. -/
def demoNet : Net where
  AddressString := fun a => String.mk (List.replicate a 'z')
  DecodeAddress := fun s => s.length
  JsonToEntry := demoDecode
  EntryJson := fun e => [e.Address, e.Port.toNat]
  dhtQuery := fun d a => .ok (d.find? (fun kv => kv.key = a))
  dhtFindClosest := fun d _ => .ok (d.take 1)
  dhtInsert := fun d kv => kv :: d
  dhtHas := fun d a => d.any (fun kv => kv.key = a)
  OpenTCP := fun ep =>
    if ep = "host:2" then .ok (nodeEntry 2)
    else if ep = "host:3" then .ok (nodeEntry 3)
    else .error "connection refused"
  sessionCheck := fun _ => .ok ()
  streamsOpenStream := fun _ => .ok ()
  streamQuery := fun _ _ => .ok none
  streamFindClosest := fun _ _ => .ok []
  streamCollection := fun _ _ _ => .error "no collection"
  streamPieces := fun _ _ _ _ => []
  streamRequestAddPeer := fun _ _ => .ok ()
  PieceHash := fun piece => List.replicate 32 (piece.headD 0)
  PieceSize := 2

/-- The local node X: address 1, its DHT knows only Y (address 2), no peer is
registered. -/
def localX : LocalPeer :=
  { address := 1, Entry := nodeEntry 1, DHT := [dht.NewKeyValue 2 [2, 2]], Peers := [],
    PublicToZif := [], Socks := false, SocksPort := 0 }

/-- Nothing has happened yet. -/
def sys0 : Sys := { trace := [], streams := 0, nextPeer := 0 }

/-- The three-node network of the spec: Y (at `host:2`) misses the target 9 and names Z
as closest; Z (at `host:3`, address 3) holds the record of the target 9. -/
def relayNet : Net :=
  { demoNet with
    streamQuery := fun ep target =>
      if ep = "host:3" ∧ target = "zzzzzzzzz" then .ok (some (dht.NewKeyValue 9 [9, 9]))
      else .ok none
    streamFindClosest := fun ep _ =>
      if ep = "host:2" then .ok [dht.NewKeyValue 3 [3, 3]] else .ok [] }

/-- The hash list of the three blocks `[10]`, `[11]`, `[12]`: three 32-byte digests. -/
def threeHashes : List Nat :=
  List.replicate 32 10 ++ List.replicate 32 11 ++ List.replicate 32 12

/-- A network whose node at `host:2` serves a collection of three blocks and streams the
blocks from the requested index on. -/
def mirrorNet : Net :=
  { demoNet with
    streamCollection := fun _ _ _ => .ok { HashList := threeHashes, Size := 3 }
    streamPieces := fun _ _ since size => (([[10], [11], [12]] : List Piece).drop since).take size }

/-- The same network with a node that streams the collection from block 0 whatever
index is requested. -/
def replayNet : Net :=
  { mirrorNet with
    streamPieces := fun _ _ _ size => ([[10], [11], [12]] : List Piece).take size }

/-- A connected handle for the node Y with its entry (post count 6) cached. -/
def peerY : Peer :=
  { id := 0, address := 2, publicKey := [], conn := some "host:2",
    entry := some { nodeEntry 2 with PostCount := 6 }, seed := false, seedFor := none,
    Socks := false, SocksPort := 0 }

/-- A manifest whose second digest is corrupted. -/
def corruptNet : Net :=
  { mirrorNet with
    streamCollection := fun _ _ _ =>
      .ok { HashList := List.replicate 32 10 ++ List.replicate 32 99 ++ List.replicate 32 12,
            Size := 3 } }

/-- A manifest with an empty hash list for a collection of one block. -/
def shortNet : Net :=
  { mirrorNet with
    streamCollection := fun _ _ _ => .ok { HashList := [], Size := 1 } }

/-- The handle for Y acting as a seed for the entry of address 7, whose post count
is 1; Y's own cached entry has post count 6. -/
def seedPeer : Peer :=
  { peerY with seed := true, seedFor := some { nodeEntry 7 with PostCount := 1 } }

/-- The same seed handle with no cached entry of its own. -/
def freshSeedPeer : Peer :=
  { seedPeer with entry := none }

/-- The handle a first dial of `host:2` creates. -/
def handleY : Peer :=
  { id := 0, address := 2, publicKey := [], conn := some "host:2", entry := none,
    seed := false, seedFor := none, Socks := false, SocksPort := 0 }

/-- The first call `ConnectPeerDirect("host:2")` of the local node X. -/
def firstDial : Res Peer × LocalPeer × Sys :=
  localX.ConnectPeerDirect demoNet sys0 "host:2"

/-- A second call `ConnectPeerDirect("host:2")`, made right after the first. -/
def secondDial : Res Peer × LocalPeer × Sys :=
  firstDial.2.1.ConnectPeerDirect demoNet firstDial.2.2 "host:2"

/-- A network with a cycle: Y (at `host:2`) misses every target and names itself as
closest. -/
def cycleNet : Net :=
  { demoNet with
    streamFindClosest := fun ep _ =>
      if ep = "host:2" then .ok [dht.NewKeyValue 2 [2, 2]] else .ok [] }

/-- A chain without cycle: Y (at `host:2`) names Z, Z (at `host:3`) names nobody, and
nobody holds a record. -/
def chainNet : Net :=
  { demoNet with
    streamFindClosest := fun ep _ =>
      if ep = "host:2" then .ok [dht.NewKeyValue 3 [3, 3]] else .ok [] }

/-- Rank of the endpoints of `chainNet`. -/
def chainRank (ep : String) : Nat :=
  if ep = "host:2" then 1 else 0

/-- A handle for Y that holds a cached entry but has no session. -/
def deadPeer : Peer :=
  { peerY with conn := none }

/-- A connected handle for Y with nothing cached. -/
def freshY : Peer :=
  { peerY with entry := none }

/-- A network whose node at `host:2` answers the query for its own address 2 with its
own record. -/
def entryNet : Net :=
  { demoNet with
    streamQuery := fun ep target =>
      if ep = "host:2" ∧ target = "zz" then .ok (some (dht.NewKeyValue 2 [2, 2]))
      else .ok none }

/-- A network whose nodes open streams but fail every exact query on them. -/
def timeoutNet : Net :=
  { demoNet with streamQuery := fun _ _ => .error "timeout" }

/-- A network whose nodes miss every exact query and fail every closest-set request. -/
def closestTimeoutNet : Net :=
  { demoNet with streamFindClosest := fun _ _ => .error "timeout" }

/-- The three-node network with a local DHT that hands out all its records as closest
set. -/
def wideNet : Net :=
  { relayNet with dhtFindClosest := fun d _ => .ok d }

/-- The local node X with four records in its DHT: one that does not decode, Y, Z and
a node at `host:4`. -/
def localWide : LocalPeer :=
  { localX with
    DHT := [dht.NewKeyValue 5 [0], dht.NewKeyValue 2 [2, 2], dht.NewKeyValue 3 [3, 3],
            dht.NewKeyValue 4 [4, 4]] }

/-- A seed environment in which every seed is reachable and answers with the seed list
`remote` for the tracked address; the merge is `MergeSeeds`. -/
def seedEnv (remote : List dht.Address) : SeedEnv where
  QueryEntry := fun a => .ok (nodeEntry a)
  AddressString := fun a => .ok (String.mk (List.replicate a 'z'))
  ConnectPeer := fun a => .ok (nodeEntry a)
  peerQuery := fun _ a => .ok { nodeEntry a with Seeds := remote }
  MergeSeeds := MergeSeeds
  Encode := fun e => .ok (e.Address :: e.Seeds)
  dhtInsert := fun d kv => kv :: d

/-- A seed manager of the local node 1 that tracks the address 7 with the known seed
list `seeds`. -/
def seedManager (seeds : List dht.Address) : SeedManager :=
  { localAddress := 1, track := 7, entry := { nodeEntry 7 with Seeds := seeds }, DHT := [],
    inserts := [] }

/-! ## Theorems -/

/-- C1 (failing input). In the three-node network the premises of the claim hold: the
local DHT misses the target 9 and its closest set is `[Y]`, Y misses and names Z, Z
answers the exact query with an entry whose address is the target. Z's own address
is 3, not 9, and `Resolve` returns the error "Address could not be resolved" instead
of the entry, whatever the fuel. -/
theorem resolve_two_hops_loses_entry :
    relayNet.dhtQuery localX.DHT 9 = .ok none ∧
    relayNet.dhtFindClosest localX.DHT 9 = .ok [dht.NewKeyValue 2 [2, 2]] ∧
    relayNet.streamQuery "host:2" "zzzzzzzzz" = .ok none ∧
    relayNet.streamFindClosest "host:2" "zzzzzzzzz" = .ok [dht.NewKeyValue 3 [3, 3]] ∧
    relayNet.streamQuery "host:3" "zzzzzzzzz" = .ok (some (dht.NewKeyValue 9 [9, 9])) ∧
    (relayNet.JsonToEntry [9, 9]).map (fun e => e.Address) = .ok 9 ∧
    ∀ fuel, (LocalPeer.Resolve relayNet (fuel + 2) localX sys0 "zzzzzzzzz").map (fun r => r.1)
      = some (.error "Address could not be resolved") := by
  refine ⟨rfl, rfl, rfl, rfl, rfl, rfl, ?_⟩
  intro fuel
  rfl

/-- C2 (failing input). With block size 2 and 3 local posts the first requested index
`since` is 1. An honest node streams blocks 1 and 2; block 1 hashes to the manifest
slice at byte offset `32 * (since + 0)`, yet `Mirror` compares it with the slice at
offset 0 and fails with "Piece hash mismatch" before any progress event. A node that
streams from block 0 instead has its first block, which differs from the slice at
offset `32 * (since + 0)`, accepted. -/
theorem mirror_checks_offset_without_since :
    mirrorSince mirrorNet 3 = 1 ∧
    mirrorNet.streamPieces "host:2" 2 1 3 = [[11], [12]] ∧
    sliceBytes threeHashes (32 * (1 + 0)) (32 * (1 + 0) + 32) = some (mirrorNet.PieceHash [11]) ∧
    (peerY.Mirror mirrorNet 3 sys0).1 = .error "Piece hash mismatch" ∧
    (∀ i, Event.progress i ∉ (peerY.Mirror mirrorNet 3 sys0).2.2.trace) ∧
    replayNet.streamPieces "host:2" 2 1 3 = [[10], [11], [12]] ∧
    sliceBytes threeHashes (32 * (1 + 0)) (32 * (1 + 0) + 32) ≠ some (replayNet.PieceHash [10]) ∧
    (peerY.Mirror replayNet 3 sys0).1 = .ok { peer := 0 } ∧
    Event.progress 0 ∈ (peerY.Mirror replayNet 3 sys0).2.2.trace ∧
    Event.storePiece [10] ∈ (peerY.Mirror replayNet 3 sys0).2.2.trace := by
  refine ⟨by decide, by decide, by decide, by decide, ?_, by decide, by decide, by decide,
    by decide, by decide⟩
  intro i
  have h : (peerY.Mirror mirrorNet 3 sys0).2.2.trace =
      [.openStream 0, .collection 0 2, .saveCollection 2, .pieces 0 2 1 3] := by decide
  rw [h]
  simp

/-- The loop of `Mirror` against `firstBadFrom` for a stream requested from index 0,
where the offset the loop uses is the offset of the block: no bad block, all events
and success;
a first bad block at `k`, the events of the blocks before it and then the error when
the hash list holds the slice of `k`, the panic when it does not. -/
theorem mirrorLoop_spec (net : Net) (hl : List Nat) :
    ∀ (blocks : List Piece) (i : Nat) (sys : Sys),
      (firstBadFrom net hl 0 blocks i = none →
        mirrorLoop net hl blocks i sys
          = (.ok (), { sys with trace := sys.trace ++ mirrorEvents blocks i })) ∧
      (∀ k, firstBadFrom net hl 0 blocks i = some k →
        i ≤ k ∧
        (32 * (k + 1) ≤ hl.length →
          mirrorLoop net hl blocks i sys
            = (.error "Piece hash mismatch",
                { sys with trace := sys.trace ++ mirrorEvents (blocks.take (k - i)) i })) ∧
        (hl.length < 32 * (k + 1) →
          mirrorLoop net hl blocks i sys
            = (.panic "slice bounds out of range",
                { sys with trace := sys.trace ++ mirrorEvents (blocks.take (k - i)) i }))) := by
  intro blocks
  induction blocks with
  | nil =>
    intro i sys
    constructor
    · intro _
      simp [mirrorLoop, mirrorEvents]
    · intro k hk
      simp [firstBadFrom] at hk
  | cons b rest ih =>
    intro i sys
    by_cases hm : manifestSlice hl i = some (net.PieceHash b)
    · have hs : sliceBytes hl (32 * i) (32 * i + 32) = some (net.PieceHash b) := hm
      obtain ⟨ih1, ih2⟩ := ih (i + 1) ((sys.log (.progress i)).log (.storePiece b))
      constructor
      · intro hnone
        simp only [firstBadFrom, Nat.zero_add, hm, if_true] at hnone
        simp only [mirrorLoop, hs, ne_eq, not_true_eq_false, if_false]
        rw [ih1 hnone]
        simp [Sys.log, mirrorEvents]
      · intro k hk
        simp only [firstBadFrom, Nat.zero_add, hm, if_true] at hk
        obtain ⟨hle, herr, hpanic⟩ := ih2 k hk
        have hki : k - i = (k - (i + 1)) + 1 := by omega
        refine ⟨by omega, ?_, ?_⟩
        · intro hlen
          simp only [mirrorLoop, hs, ne_eq, not_true_eq_false, if_false]
          rw [herr hlen, hki]
          simp [Sys.log, mirrorEvents]
        · intro hlen
          simp only [mirrorLoop, hs, ne_eq, not_true_eq_false, if_false]
          rw [hpanic hlen, hki]
          simp [Sys.log, mirrorEvents]
    · constructor
      · intro hnone
        simp [firstBadFrom, hm] at hnone
      · intro k hk
        simp only [firstBadFrom, Nat.zero_add, hm, if_false, Option.some.injEq] at hk
        subst hk
        refine ⟨le_refl _, ?_, ?_⟩
        · intro hlen
          have hin : 32 * i ≤ 32 * i + 32 ∧ 32 * i + 32 ≤ hl.length := by omega
          have hs : sliceBytes hl (32 * i) (32 * i + 32)
              = some ((hl.drop (32 * i)).take 32) := by
            simp [sliceBytes, hin]
          have hne : ¬ ((hl.drop (32 * i)).take 32 = net.PieceHash b) := by
            intro h
            apply hm
            simp only [manifestSlice, hs, h]
          simp [mirrorLoop, hs, hne, mirrorEvents]
        · intro hlen
          have hout : ¬ (32 * i ≤ 32 * i + 32 ∧ 32 * i + 32 ≤ hl.length) := by omega
          have hs : sliceBytes hl (32 * i) (32 * i + 32) = none := by
            simp only [sliceBytes, hout, if_false]
          simp [mirrorLoop, hs, mirrorEvents]

/-- The call `p.RequestAddPeer` does not panic, and its first effect is the record of
the call. -/
theorem requestAddPeer_spec (net : Net) (p : Peer) (addr : String) (sys : Sys) :
    (∀ msg, (p.RequestAddPeer net addr sys).1 ≠ .panic msg) ∧
    ∃ rest, (p.RequestAddPeer net addr sys).2.trace
      = sys.trace ++ Event.requestAddPeer p.id addr :: rest := by
  unfold Peer.RequestAddPeer Peer.OpenStream
  cases hc : p.CheckConnection net with
  | error e => exact ⟨by intro msg; simp, ⟨[], by simp [Sys.log]⟩⟩
  | ok u =>
    cases hconn : p.conn with
    | none => simp [Peer.CheckConnection, hconn] at hc
    | some ep =>
      cases ho : net.streamsOpenStream ep with
      | error e => exact ⟨by intro msg; simp [ho], ⟨[], by simp [Sys.log, ho]⟩⟩
      | ok u2 =>
        cases hr : net.streamRequestAddPeer ep addr with
        | error e =>
          exact ⟨by intro msg; simp [ho, hr],
            ⟨[.openStream p.id, .addPeerRequest p.id addr], by simp [Sys.log, ho, hr]⟩⟩
        | ok u3 =>
          exact ⟨by intro msg; simp [ho, hr],
            ⟨[.openStream p.id, .addPeerRequest p.id addr], by simp [Sys.log, ho, hr]⟩⟩

/-- C3 (failing input). First input: block size 2 and 3 local posts, so the stream is
requested from index 1, and an honest node sends blocks 1 and 2. No received block
differs from its manifest slice, yet `Mirror` returns "Piece hash mismatch" with no
progress event, no block forwarded and no call of `RequestAddPeer`. Second input: the
manifest has an empty hash list and one block arrives. Position 0 is the first block
whose hash differs from its manifest slice, and `Mirror` does not return an error, it
panics on the slice expression. -/
theorem mirror_first_bad_block_misjudged :
    mirrorSince mirrorNet 3 = 1 ∧
    mirrorNet.streamPieces "host:2" 2 1 3 = [[11], [12]] ∧
    firstBad mirrorNet threeHashes 1 [[11], [12]] = none ∧
    peerY.Mirror mirrorNet 3 sys0 =
      (.error "Piece hash mismatch", peerY,
        { trace := [.openStream 0, .collection 0 2, .saveCollection 2, .pieces 0 2 1 3],
          streams := 1, nextPeer := 0 }) ∧
    firstBad shortNet [] 0 (shortNet.streamPieces "host:2" 2 0 1) = some 0 ∧
    (peerY.Mirror shortNet 0 sys0).1 = .panic "slice bounds out of range" ∧
    ¬ ∃ msg, (peerY.Mirror shortNet 0 sys0).1 = .error msg := by
  refine ⟨by decide, by decide, by decide, by decide, by decide, by decide, ?_⟩
  rintro ⟨msg, h⟩
  have hp : (peerY.Mirror shortNet 0 sys0).1 = .panic "slice bounds out of range" := by decide
  rw [hp] at h
  cases h

/-- Where the offset of the loop is the offset of the block. `Mirror` has fetched the
manifest and asks for blocks from index 0: if `k` is the position of the first
received block whose hash differs from its manifest slice and the hash list is long
enough to hold that slice, `Mirror` returns the error "Piece hash mismatch" and its
effects after the request of the piece stream are exactly the progress event and the
hand-over of the blocks `0..k-1`, in order (no later block, no `RequestAddPeer`); if
no block differs, the effects are the progress event and the hand-over of every
block in order, followed by the call of `RequestAddPeer`, and `Mirror` returns the
stream. -/
theorem mirror_stops_at_first_bad_block (net : Net) (p : Peer) (db : Nat) (sys : Sys)
    (stream : Stream) (ep : String) (p1 : Peer) (entry : proto.Entry)
    (mcol : MessageCollection) (sys4 : Sys)
    (hsetup : p.mirrorSetup net db sys = .transfer stream ep p1 entry mcol sys4)
    (hsince : mirrorSince net db = 0) :
    (∀ k, firstBad net mcol.HashList (mirrorSince net db)
            (net.streamPieces ep entry.Address (mirrorSince net db) mcol.Size) = some k →
        32 * (k + 1) ≤ mcol.HashList.length →
        p.Mirror net db sys =
          (.error "Piece hash mismatch", p1,
            { sys4 with
              trace := sys4.trace ++
                Event.pieces p1.id entry.Address (mirrorSince net db) mcol.Size ::
                mirrorEvents
                  ((net.streamPieces ep entry.Address (mirrorSince net db) mcol.Size).take k)
                  0 })) ∧
    (firstBad net mcol.HashList (mirrorSince net db)
          (net.streamPieces ep entry.Address (mirrorSince net db) mcol.Size) = none →
        (p.Mirror net db sys).1 = .ok stream ∧
        ∃ rest, (p.Mirror net db sys).2.2.trace =
          sys4.trace ++
            Event.pieces p1.id entry.Address (mirrorSince net db) mcol.Size ::
            (mirrorEvents (net.streamPieces ep entry.Address (mirrorSince net db) mcol.Size) 0
              ++ Event.requestAddPeer p1.id (net.AddressString p1.address) :: rest)) := by
  have hfb : ∀ blocks, firstBad net mcol.HashList (mirrorSince net db) blocks
      = firstBadFrom net mcol.HashList 0 blocks 0 := by
    intro blocks
    rw [hsince]
    rfl
  simp only [hfb]
  constructor
  · intro k hk hlen
    obtain ⟨_, herr, _⟩ :=
      (mirrorLoop_spec net mcol.HashList
        (net.streamPieces ep entry.Address (mirrorSince net db) mcol.Size) 0
        (sys4.log (.pieces p1.id entry.Address (mirrorSince net db) mcol.Size))).2 k hk
    simp only [Peer.Mirror, hsetup, Peer.mirrorTransfer]
    rw [herr hlen]
    simp [Sys.log]
  · intro hnone
    have hok :=
      (mirrorLoop_spec net mcol.HashList
        (net.streamPieces ep entry.Address (mirrorSince net db) mcol.Size) 0
        (sys4.log (.pieces p1.id entry.Address (mirrorSince net db) mcol.Size))).1 hnone
    obtain ⟨hnp, rest, hrest⟩ :=
      requestAddPeer_spec net p1 (net.AddressString p1.address)
        { sys4.log (.pieces p1.id entry.Address (mirrorSince net db) mcol.Size) with
          trace := (sys4.log (.pieces p1.id entry.Address (mirrorSince net db) mcol.Size)).trace
            ++ mirrorEvents
                (net.streamPieces ep entry.Address (mirrorSince net db) mcol.Size) 0 }
    simp only [Peer.Mirror, hsetup, Peer.mirrorTransfer]
    rw [hok]
    dsimp only
    split
    · rename_i msg sys6 heq
      exact absurd (congrArg Prod.fst heq) (hnp msg)
    · rename_i r1 sys7 _ heq
      have ht := (congrArg (fun r => r.2.trace) heq).symm.trans hrest
      exact ⟨rfl, rest, by simpa [Sys.log] using ht⟩

/-- A stream requested from index 0 against a manifest whose second digest is
corrupted: `Mirror` fails after the progress event and the hand-over of block 0
alone. -/
theorem mirror_stops_at_first_bad_block_witness :
    peerY.Mirror corruptNet 0 sys0 =
      (.error "Piece hash mismatch", peerY,
        { trace := [.openStream 0, .collection 0 2, .saveCollection 2, .pieces 0 2 0 3,
                    .progress 0, .storePiece [10]],
          streams := 1, nextPeer := 0 }) :=
  (mirror_stops_at_first_bad_block corruptNet peerY 0 sys0 { peer := 0 } "host:2" peerY
    { nodeEntry 2 with PostCount := 6 }
    { HashList := List.replicate 32 10 ++ List.replicate 32 99 ++ List.replicate 32 12,
      Size := 3 }
    { trace := [.openStream 0, .collection 0 2, .saveCollection 2], streams := 1, nextPeer := 0 }
    (by decide) (by decide)).1 1 (by decide) (by decide)

/-- C4 (failing input). Y is mirrored as a seed for the entry of address 7, whose post
count 1 equals the post count of the local store. `Mirror` compares the local count
with the post count 6 of Y's own cached entry instead: it requests the piece stream,
emits three progress events and forwards three blocks. When Y has no cached entry
of its own the comparison is a nil dereference. -/
theorem mirror_seed_ignores_equal_post_count :
    seedPeer.seed = true ∧
    seedPeer.seedFor.map (fun e => e.PostCount) = some ((1 : Nat) : Int) ∧
    (seedPeer.Mirror mirrorNet 1 sys0).2.2.trace =
      [.openStream 0, .collection 0 7, .saveCollection 7, .pieces 0 7 0 3,
       .progress 0, .storePiece [10], .progress 1, .storePiece [11],
       .progress 2, .storePiece [12],
       .requestAddPeer 0 "zz", .openStream 0, .addPeerRequest 0 "zz"] ∧
    (freshSeedPeer.Mirror mirrorNet 1 sys0).1 = .panic "nil Entry" := by
  refine ⟨rfl, by decide, by decide, by decide⟩

/-- C5 (failing input). The first `ConnectPeerDirect("host:2")` succeeds and registers
its handle under the remote address `zz`. The second call looks the endpoint
`host:2` up in the registry, which is keyed by remote address, misses, dials again
and returns a new handle that replaces the first one in `Peers`. -/
theorem connectPeerDirect_dials_again :
    firstDial.1 = .ok handleY ∧
    firstDial.2.1.Peers = [("zz", handleY)] ∧
    firstDial.2.1.PublicToZif = [("host:2", "zz")] ∧
    firstDial.2.1.GetPeer "host:2" = none ∧
    secondDial.1 = .ok { handleY with id := 1 } ∧
    secondDial.1 ≠ firstDial.1 ∧
    secondDial.2.2.trace =
      firstDial.2.2.trace ++
        [.dial "host:2", .dhtInsert (dht.NewKeyValue 2 [2, 2]), .connectClient 1] ∧
    secondDial.2.1.Peers = [("zz", { handleY with id := 1 })] ∧
    secondDial.2.1.Peers ≠ firstDial.2.1.Peers := by
  refine ⟨by decide, by decide, by decide, by decide, by decide, by decide, by decide,
    by decide, by decide⟩

/-- Lookup after `cmapSet`. -/
theorem cmapGet_cmapSet {α : Type} (m : List (String × α)) (k k' : String) (v : α) :
    cmapGet (cmapSet m k v) k' = if k = k' then some v else cmapGet m k' := by
  induction m with
  | nil => simp [cmapSet, cmapGet]
  | cons kv rest ih =>
    obtain ⟨a, b⟩ := kv
    by_cases hak : a = k
    · subst hak
      by_cases hk : a = k' <;> simp [cmapSet, cmapGet, hk]
    · by_cases hk : k = k'
      · subst hk
        simp [cmapSet, cmapGet, hak, ih]
      · by_cases hak' : a = k'
        · subst hak'
          simp [cmapSet, cmapGet, hak, hk]
        · simp [cmapSet, cmapGet, hak, hak', hk, ih]

/-- What `ConnectPeerDirect` returns on a consistent registry: an error, or a handle
connected to an endpoint that is `addr` or whose handshake address has the string
`addr`; the registry stays consistent. -/
theorem connectPeerDirect_cases (net : Net) (lp : LocalPeer) (sys : Sys) (addr : String)
    (hreg : RegistryOk net lp) :
    (∃ err lp1 sys1, lp.ConnectPeerDirect net sys addr = (.error err, lp1, sys1) ∧
        RegistryOk net lp1) ∨
    (∃ peer lp1 sys1 ep pe, lp.ConnectPeerDirect net sys addr = (.ok peer, lp1, sys1) ∧
        RegistryOk net lp1 ∧ peer.conn = some ep ∧ net.OpenTCP ep = .ok pe ∧
        (ep = addr ∨ net.AddressString pe.Address = addr)) := by
  unfold LocalPeer.ConnectPeerDirect
  cases hg : lp.GetPeer addr with
  | some peer =>
    obtain ⟨ep, pe, hc, ho, hk⟩ := hreg addr peer hg
    exact Or.inr ⟨peer, lp, sys, ep, pe, rfl, hreg, hc, ho, Or.inr hk⟩
  | none =>
    cases ho : net.OpenTCP addr with
    | error err =>
      simp only [Peer.Connect, ho]
      exact Or.inl ⟨err, lp, _, rfl, hreg⟩
    | ok pe =>
      simp only [Peer.Connect, ho]
      refine Or.inr ⟨_, _, _, addr, pe, rfl, ?_, ?_, ho, Or.inl rfl⟩
      · intro key p hp
        simp only [cmapGet_cmapSet] at hp
        by_cases hk : net.AddressString pe.Address = key
        · rw [if_pos hk] at hp
          cases hp
          exact ⟨addr, pe, rfl, ho, hk⟩
        · rw [if_neg hk] at hp
          exact hreg key p hp
      · rfl

/-- What the first lines of `resolveStep` yield on a consistent registry: an error, or
a handle connected to an endpoint that serves `e`. -/
theorem stepPeer_cases (net : Net) (lp : LocalPeer) (sys : Sys) (e : proto.Entry)
    (hreg : RegistryOk net lp) :
    (∃ err lp1 sys1, lp.stepPeer net sys e = (.error err, lp1, sys1) ∧ RegistryOk net lp1) ∨
    (∃ peer lp1 sys1 ep, lp.stepPeer net sys e = (.ok peer, lp1, sys1) ∧
        RegistryOk net lp1 ∧ peer.conn = some ep ∧ Serves net ep e) := by
  cases hg : lp.GetPeer (net.AddressString e.Address) with
  | some peer =>
    obtain ⟨ep, pe, hc, ho, hk⟩ := hreg _ peer hg
    simp only [LocalPeer.stepPeer, hg]
    exact Or.inr ⟨peer, lp, sys, ep, rfl, hreg, hc, Or.inr ⟨pe, ho, Or.inl hk⟩⟩
  | none =>
    simp only [LocalPeer.stepPeer, hg]
    rcases connectPeerDirect_cases net lp sys (endpointOf e) hreg with
      ⟨err, lp1, sys1, h, hr⟩ | ⟨peer, lp1, sys1, ep, pe, h, hr, hc, ho, hk⟩
    · exact Or.inl ⟨err, lp1, sys1, h, hr⟩
    · refine Or.inr ⟨peer, lp1, sys1, ep, h, hr, hc, ?_⟩
      rcases hk with hk | hk
      · exact Or.inl hk
      · exact Or.inr ⟨pe, ho, Or.inr hk⟩

/-- What `Peer.Query` returns on a handle connected to `ep`, when streams open on live
sessions: an error, or the answer of the peer at `ep` together with the stream. -/
theorem query_cases (net : Net) (p : Peer) (s : String) (sys : Sys) (ep : String)
    (hconn : p.conn = some ep)
    (hopen : ∀ ep, net.sessionCheck ep = .ok () → net.streamsOpenStream ep = .ok ()) :
    (∃ st err sys1, p.Query net s sys = (st, .error err, sys1)) ∨
    (∃ client kv sys1, p.Query net s sys = (some client, .ok kv, sys1) ∧
        net.streamQuery ep s = .ok kv) := by
  unfold Peer.Query Peer.OpenStream Peer.CheckConnection
  simp only [hconn]
  cases hs : net.sessionCheck ep with
  | error err => exact Or.inl ⟨none, err, sys, rfl⟩
  | ok u =>
    have ho := hopen ep hs
    simp only [ho]
    cases hq : net.streamQuery ep s with
    | error err => exact Or.inl ⟨_, err, _, rfl⟩
    | ok kv => exact Or.inr ⟨_, kv, _, rfl, rfl⟩

/-- What `Peer.FindClosest` returns on a handle connected to `ep`, when streams open
on live sessions. -/
theorem findClosest_cases (net : Net) (p : Peer) (s : String) (sys : Sys) (ep : String)
    (hconn : p.conn = some ep)
    (hopen : ∀ ep, net.sessionCheck ep = .ok () → net.streamsOpenStream ep = .ok ()) :
    (∃ st err sys1, p.FindClosest net s sys = (st, .error err, sys1)) ∨
    (∃ client cs sys1, p.FindClosest net s sys = (some client, .ok cs, sys1) ∧
        net.streamFindClosest ep s = .ok cs) := by
  unfold Peer.FindClosest Peer.OpenStream Peer.CheckConnection
  simp only [hconn]
  cases hs : net.sessionCheck ep with
  | error err => exact Or.inl ⟨none, err, sys, rfl⟩
  | ok u =>
    have ho := hopen ep hs
    simp only [ho]
    cases hq : net.streamFindClosest ep s with
    | error err => exact Or.inl ⟨_, err, _, rfl⟩
    | ok cs => exact Or.inr ⟨_, cs, _, rfl, rfl⟩

/-- The loop of `resolveStep` when every step on a decodable candidate returns an
error: it returns "No entries could be found". -/
theorem resolveStepLoop_all_errors (net : Net)
    (step : LocalPeer → Sys → proto.Entry → dht.Address →
      Option (Res proto.Entry × LocalPeer × Sys))
    (addr : dht.Address) :
    ∀ (cs : List dht.KeyValue) (lp : LocalPeer) (sys : Sys),
      RegistryOk net lp →
      (∀ kv ∈ cs, ∀ e, net.JsonToEntry kv.value = .ok e → ∀ lp1 sys1, RegistryOk net lp1 →
        ∃ msg lp2 sys2, step lp1 sys1 e addr = some (.error msg, lp2, sys2) ∧
          RegistryOk net lp2) →
      ∃ lp2 sys2, resolveStepLoop net step addr cs lp sys
          = some (.error "No entries could be found", lp2, sys2) ∧ RegistryOk net lp2 := by
  intro cs
  induction cs with
  | nil =>
    intro lp sys hreg _
    exact ⟨lp, sys, rfl, hreg⟩
  | cons i rest ih =>
    intro lp sys hreg hstep
    have hrest : ∀ kv ∈ rest, ∀ e, net.JsonToEntry kv.value = .ok e → ∀ lp1 sys1,
        RegistryOk net lp1 →
        ∃ msg lp2 sys2, step lp1 sys1 e addr = some (.error msg, lp2, sys2) ∧
          RegistryOk net lp2 :=
      fun kv hkv => hstep kv (List.mem_cons_of_mem _ hkv)
    cases hd : net.JsonToEntry i.value with
    | error err =>
      simp only [resolveStepLoop, hd]
      exact ih lp sys hreg hrest
    | ok e =>
      obtain ⟨msg, lp2, sys2, hs, hreg2⟩ := hstep i (List.mem_cons_self _ _) e hd lp sys hreg
      simp only [resolveStepLoop, hd, hs]
      exact ih lp2 sys2 hreg2 hrest

/-- The loop of `Resolve` when every step on a decodable candidate returns an error:
it returns "Address could not be resolved". -/
theorem resolveLoop_all_errors (net : Net)
    (step : LocalPeer → Sys → proto.Entry → dht.Address →
      Option (Res proto.Entry × LocalPeer × Sys))
    (addr : dht.Address) :
    ∀ (cs : List dht.KeyValue) (lp : LocalPeer) (sys : Sys),
      RegistryOk net lp →
      (∀ kv ∈ cs, ∀ e, net.JsonToEntry kv.value = .ok e → ∀ lp1 sys1, RegistryOk net lp1 →
        ∃ msg lp2 sys2, step lp1 sys1 e addr = some (.error msg, lp2, sys2) ∧
          RegistryOk net lp2) →
      ∃ lp2 sys2, resolveLoop net step addr cs lp sys
          = some (.error "Address could not be resolved", lp2, sys2) := by
  intro cs
  induction cs with
  | nil =>
    intro lp sys _ _
    exact ⟨lp, sys, rfl⟩
  | cons i rest ih =>
    intro lp sys hreg hstep
    have hrest : ∀ kv ∈ rest, ∀ e, net.JsonToEntry kv.value = .ok e → ∀ lp1 sys1,
        RegistryOk net lp1 →
        ∃ msg lp2 sys2, step lp1 sys1 e addr = some (.error msg, lp2, sys2) ∧
          RegistryOk net lp2 :=
      fun kv hkv => hstep kv (List.mem_cons_of_mem _ hkv)
    cases hd : net.JsonToEntry i.value with
    | error err =>
      simp only [resolveLoop, hd]
      exact ih lp sys hreg hrest
    | ok e =>
      obtain ⟨msg, lp2, sys2, hs, hreg2⟩ := hstep i (List.mem_cons_self _ _) e hd lp sys hreg
      simp only [resolveLoop, hd, hs]
      exact ih lp2 sys2 hreg2 hrest

/-- A resolution step for an absent target returns an error as soon as the fuel
exceeds the rank of every endpoint that serves the entry. -/
theorem resolveStep_absent (net : Net) (target : dht.Address) (rank : String → Nat)
    (hq : ∀ ep kv, net.streamQuery ep (net.AddressString target) ≠ .ok (some kv))
    (hopen : ∀ ep, net.sessionCheck ep = .ok () → net.streamsOpenStream ep = .ok ())
    (hdesc : Descends net (net.AddressString target) rank) :
    ∀ (fuel : Nat) (lp : LocalPeer) (sys : Sys) (e : proto.Entry),
      RegistryOk net lp → (∀ ep, Serves net ep e → rank ep < fuel) →
      ∃ msg lp2 sys2, LocalPeer.resolveStep net fuel lp sys e target
          = some (.error msg, lp2, sys2) ∧ RegistryOk net lp2 := by
  intro fuel
  induction fuel with
  | zero =>
    intro lp sys e _ hrank
    exact absurd (hrank (endpointOf e) (Or.inl rfl)) (Nat.not_lt_zero _)
  | succ n ih =>
    intro lp sys e hreg hrank
    rcases stepPeer_cases net lp sys e hreg with
      ⟨err, lp1, sys1, hp, hr1⟩ | ⟨peer, lp1, sys1, ep, hp, hr1, hc, hserves⟩
    · exact ⟨err, lp1, sys1, by simp only [LocalPeer.resolveStep, hp], hr1⟩
    · rcases query_cases net peer (net.AddressString target) sys1 ep hc hopen with
        ⟨st, err, sys2, hqr⟩ | ⟨client, kv, sys2, hqr, hans⟩
      · exact ⟨err, lp1, sys2, by simp only [LocalPeer.resolveStep, hp, hqr], hr1⟩
      · cases kv with
        | some kv => exact absurd hans (hq ep kv)
        | none =>
          rcases findClosest_cases net peer (net.AddressString target) (client.Close sys2) ep
              hc hopen with ⟨st, err, sys4, hf⟩ | ⟨client2, cs, sys4, hf, hcs⟩
          · exact ⟨err, lp1, sys4, by simp only [LocalPeer.resolveStep, hp, hqr, hf], hr1⟩
          · have hloop := resolveStepLoop_all_errors net (LocalPeer.resolveStep net n) target
              cs lp1 (client2.Close sys4) hr1
              (fun kv hkv e' hd lp3 sys3 hr3 =>
                ih lp3 sys3 e' hr3 (fun ep' hs' => by
                  have h1 := hdesc ep cs kv e' ep' hcs hkv hd hs'
                  have h2 := hrank ep hserves
                  omega))
            obtain ⟨lp2, sys5, hl, hr2⟩ := hloop
            exact ⟨"No entries could be found", lp2, sys5,
              by simp only [LocalPeer.resolveStep, hp, hqr, hf, hl], hr2⟩

/-- On `cycleNet` a handle connected to `host:2` answers every query with a miss. -/
theorem cycle_query (p : Peer) (t : String) (sys : Sys) (h : p.conn = some "host:2") :
    ∃ client sys1, p.Query cycleNet t sys = (some client, .ok none, sys1) := by
  simp [Peer.Query, Peer.OpenStream, Peer.CheckConnection, h, cycleNet, demoNet]

/-- On `cycleNet` a handle connected to `host:2` names the record of `host:2` itself as
closest. -/
theorem cycle_findClosest (p : Peer) (t : String) (sys : Sys) (h : p.conn = some "host:2") :
    ∃ client sys1,
      p.FindClosest cycleNet t sys = (some client, .ok [dht.NewKeyValue 2 [2, 2]], sys1) := by
  simp [Peer.FindClosest, Peer.OpenStream, Peer.CheckConnection, h, cycleNet, demoNet]

/-- On `cycleNet` the first lines of `resolveStep` for the entry of Y always yield a
handle connected to `host:2` and leave such a handle registered for Y. -/
theorem cycle_stepPeer (lp : LocalPeer) (sys : Sys)
    (hinv : lp.Peers = [] ∨ ∃ p, lp.GetPeer "zz" = some p ∧ p.conn = some "host:2") :
    ∃ peer lp1 sys1, lp.stepPeer cycleNet sys (nodeEntry 2) = (.ok peer, lp1, sys1) ∧
      peer.conn = some "host:2" ∧
      ∃ p, lp1.GetPeer "zz" = some p ∧ p.conn = some "host:2" := by
  have hs : cycleNet.AddressString (nodeEntry 2).Address = "zz" := by decide
  have he : endpointOf (nodeEntry 2) = "host:2" := by decide
  have ho : cycleNet.OpenTCP "host:2" = .ok (nodeEntry 2) := rfl
  rcases hinv with hnil | ⟨p, hp, hc⟩
  · simp only [LocalPeer.stepPeer, hs, he, LocalPeer.GetPeer, hnil, cmapGet,
      LocalPeer.ConnectPeerDirect, Peer.Connect, ho]
    refine ⟨_, _, _, rfl, rfl, ?_⟩
    simp [cmapSet, cmapGet, hs]
  · exact ⟨p, lp, sys, by simp only [LocalPeer.stepPeer, hs, hp], hc, p, hp, hc⟩

/-- On `cycleNet` no amount of fuel lets a resolution step for the entry of Y return. -/
theorem cycle_resolveStep_none :
    ∀ (fuel : Nat) (lp : LocalPeer) (sys : Sys),
      (lp.Peers = [] ∨ ∃ p, lp.GetPeer "zz" = some p ∧ p.conn = some "host:2") →
      LocalPeer.resolveStep cycleNet fuel lp sys (nodeEntry 2) 9 = none := by
  intro fuel
  induction fuel with
  | zero => intro lp sys _; rfl
  | succ n ih =>
    intro lp sys hinv
    obtain ⟨peer, lp1, sys1, hp, hc, hinv1⟩ := cycle_stepPeer lp sys hinv
    obtain ⟨client, sys2, hq⟩ := cycle_query peer (cycleNet.AddressString 9) sys1 hc
    obtain ⟨client2, sys4, hf⟩ :=
      cycle_findClosest peer (cycleNet.AddressString 9) (client.Close sys2) hc
    have hd : cycleNet.JsonToEntry (dht.NewKeyValue 2 [2, 2]).value = .ok (nodeEntry 2) := rfl
    simp only [LocalPeer.resolveStep, hp, hq, hf, resolveStepLoop, hd,
      ih lp1 (client2.Close sys4) (Or.inr hinv1)]

/-- C6 (counterexample). In `cycleNet` every peer is reachable and answers every exact
query with a miss, so no peer holds an entry for the target 9; Y names itself as
closest. `Resolve` does not return, whatever the fuel. -/
theorem resolve_cycle_never_returns :
    (∀ ep t, cycleNet.streamQuery ep t = .ok none) ∧
    (∀ ep, cycleNet.sessionCheck ep = .ok () ∧ cycleNet.streamsOpenStream ep = .ok ()) ∧
    cycleNet.dhtQuery localX.DHT 9 = .ok none ∧
    ¬ ∃ fuel r, LocalPeer.Resolve cycleNet fuel localX sys0 "zzzzzzzzz" = some r := by
  refine ⟨fun _ _ => rfl, fun _ => ⟨rfl, rfl⟩, rfl, ?_⟩
  rintro ⟨fuel, r, h⟩
  have hstep := cycle_resolveStep_none fuel localX
    ((sys0.log (.dhtQuery 9)).log (.dhtFindClosest 9)) (Or.inl rfl)
  have hnone : LocalPeer.Resolve cycleNet fuel localX sys0 "zzzzzzzzz" = none := by
    have h1 : ("zzzzzzzzz" : String) ≠ cycleNet.AddressString localX.address := by decide
    have h2 : cycleNet.DecodeAddress "zzzzzzzzz" = 9 := by decide
    have h3 : cycleNet.dhtQuery localX.DHT 9 = .ok none := rfl
    have h4 : cycleNet.dhtFindClosest localX.DHT 9 = .ok [dht.NewKeyValue 2 [2, 2]] := rfl
    have hd : cycleNet.JsonToEntry (dht.NewKeyValue 2 [2, 2]).value = .ok (nodeEntry 2) := rfl
    simp only [LocalPeer.Resolve, h1, if_false, h2, h3, h4, resolveLoop, hd, hstep]
  rw [hnone] at h
  cases h

/-- C6 (amended). No peer answers the exact query for the target with a record, the
local DHT holds none, streams open on live sessions, the registry is consistent,
and the closest-set answers for the target are acyclic (a rank bounded by `R`
decreases along them): with fuel `R` or more, `Resolve` returns, and returns an
error. -/
theorem resolve_absent_terminates (net : Net) (lp : LocalPeer) (sys : Sys) (addr : String)
    (rank : String → Nat) (R : Nat)
    (hself : addr ≠ net.AddressString lp.address)
    (hlocal : ∀ kv, net.dhtQuery lp.DHT (net.DecodeAddress addr) ≠ .ok (some kv))
    (hreg : RegistryOk net lp)
    (hq : ∀ ep kv,
      net.streamQuery ep (net.AddressString (net.DecodeAddress addr)) ≠ .ok (some kv))
    (hopen : ∀ ep, net.sessionCheck ep = .ok () → net.streamsOpenStream ep = .ok ())
    (hdesc : Descends net (net.AddressString (net.DecodeAddress addr)) rank)
    (hbound : ∀ ep, rank ep < R) :
    ∀ fuel, R ≤ fuel →
      ∃ msg lp2 sys2, LocalPeer.Resolve net fuel lp sys addr = some (.error msg, lp2, sys2) := by
  intro fuel hfuel
  simp only [LocalPeer.Resolve, hself, if_false]
  cases hdq : net.dhtQuery lp.DHT (net.DecodeAddress addr) with
  | error err => exact ⟨err, lp, _, rfl⟩
  | ok okv =>
    cases okv with
    | some kv => exact absurd hdq (hlocal kv)
    | none =>
      cases hfc : net.dhtFindClosest lp.DHT (net.DecodeAddress addr) with
      | error err => exact ⟨err, lp, _, rfl⟩
      | ok closest =>
        obtain ⟨lp2, sys2, hl⟩ := resolveLoop_all_errors net (LocalPeer.resolveStep net fuel)
          (net.DecodeAddress addr) closest lp
          ((sys.log (.dhtQuery (net.DecodeAddress addr))).log
            (.dhtFindClosest (net.DecodeAddress addr))) hreg
          (fun kv _ e _ lp1 sys1 hr1 =>
            resolveStep_absent net (net.DecodeAddress addr) rank hq hopen hdesc fuel lp1 sys1 e
              hr1 (fun ep _ => lt_of_lt_of_le (hbound ep) hfuel))
        exact ⟨_, lp2, sys2, hl⟩

/-- The closest-set answers of `chainNet` descend along `chainRank`. -/
theorem chain_descends (t : String) : Descends chainNet t chainRank := by
  intro ep cs kv e ep' hcs hkv hd hserves
  by_cases hep : ep = "host:2"
  · subst hep
    have hcs' : cs = [dht.NewKeyValue 3 [3, 3]] := by
      have h : chainNet.streamFindClosest "host:2" t = .ok [dht.NewKeyValue 3 [3, 3]] := rfl
      rw [h] at hcs
      cases hcs
      rfl
    subst hcs'
    have hkv' : kv = dht.NewKeyValue 3 [3, 3] := by simpa using hkv
    subst hkv'
    have he : e = nodeEntry 3 := by
      have h : chainNet.JsonToEntry (dht.NewKeyValue 3 [3, 3]).value = .ok (nodeEntry 3) := rfl
      rw [h] at hd
      cases hd
      rfl
    subst he
    have h3 : chainRank "host:3" < chainRank "host:2" := by decide
    rcases hserves with h | ⟨pe, ho, hk⟩
    · have : ep' = "host:3" := by rw [h]; decide
      rw [this]
      exact h3
    · by_cases h2 : ep' = "host:2"
      · subst h2
        have hpe : pe = nodeEntry 2 := by
          have h : chainNet.OpenTCP "host:2" = .ok (nodeEntry 2) := rfl
          rw [h] at ho
          cases ho
          rfl
        subst hpe
        rcases hk with hk | hk
        · exact absurd hk (by decide)
        · exact absurd hk (by decide)
      · by_cases h3' : ep' = "host:3"
        · rw [h3']
          exact h3
        · have h : chainNet.OpenTCP ep' = .error "connection refused" := by
            simp [chainNet, demoNet, h2, h3']
          rw [h] at ho
          cases ho
  · have h : chainNet.streamFindClosest ep t = .ok [] := by
      simp [chainNet, hep]
    rw [h] at hcs
    cases hcs
    cases hkv

/-- C6 (witness). On the chain Y, Z, where nobody holds the target 9, `Resolve`
returns an error with fuel 2. -/
theorem resolve_absent_terminates_witness :
    ∃ msg lp2 sys2,
      LocalPeer.Resolve chainNet 2 localX sys0 "zzzzzzzzz" = some (.error msg, lp2, sys2) :=
  resolve_absent_terminates chainNet localX sys0 "zzzzzzzzz" chainRank 2
    (by decide)
    (fun kv h => by
      have h0 : chainNet.dhtQuery localX.DHT (chainNet.DecodeAddress "zzzzzzzzz") = .ok none :=
        rfl
      rw [h0] at h
      cases h)
    (fun key p h => by cases h)
    (fun ep kv h => by
      have h0 : chainNet.streamQuery ep
          (chainNet.AddressString (chainNet.DecodeAddress "zzzzzzzzz")) = .ok none := rfl
      rw [h0] at h
      cases h)
    (fun _ _ => rfl)
    (chain_descends _)
    (fun ep => by unfold chainRank; split <;> decide)
    2 (le_refl 2)

/-- C7 (counterexample). The handle holds a cached entry and has no session: `Entry`
returns the error of the connection check, not the cached entry. -/
theorem entry_cached_dead_session_fails :
    deadPeer.entry = some { nodeEntry 2 with PostCount := 6 } ∧
    (deadPeer.Entry demoNet sys0).1 = .error "No session" := by
  refine ⟨rfl, by decide⟩

/-- C7 (amended). On a handle whose connection check succeeds: a cached entry is
returned with no effect at all (no query); with nothing cached and a stream that
opens, the query for the peer's own address is sent, and when the answer decodes to
an entry, `Entry` returns the error "Failed to fetch entry" and leaves the cache
empty if the address of that entry differs from the peer's, and caches and returns
the entry if it is equal. -/
theorem entry_postcondition (net : Net) (p : Peer) (sys : Sys)
    (hlive : p.CheckConnection net = .ok ()) :
    (∀ cached, p.entry = some cached → p.Entry net sys = (.ok cached, p, sys)) ∧
    (p.entry = none → ∀ ep, p.conn = some ep → net.streamsOpenStream ep = .ok () →
      Event.query p.id (net.AddressString p.address) ∈ (p.Entry net sys).2.2.trace ∧
      ∀ kv e, net.streamQuery ep (net.AddressString p.address) = .ok (some kv) →
        net.JsonToEntry kv.value = .ok e →
        (e.Address ≠ p.address →
          p.Entry net sys =
            (.error "Failed to fetch entry", p,
              { sys with
                trace := sys.trace ++ [.openStream p.id,
                  .query p.id (net.AddressString p.address), .closeStream p.id],
                streams := sys.streams + 1 - 1 }) ∧
          (p.Entry net sys).2.1.entry = none) ∧
        (e.Address = p.address →
          p.Entry net sys =
            (.ok e, { p with entry := some e },
              { sys with
                trace := sys.trace ++ [.openStream p.id,
                  .query p.id (net.AddressString p.address), .closeStream p.id],
                streams := sys.streams + 1 - 1 }))) := by
  constructor
  · intro cached hc
    simp only [Peer.Entry, hlive, hc]
  · intro hnone ep hconn hopen
    have hq : ∀ r, net.streamQuery ep (net.AddressString p.address) = r →
        p.Query net (net.AddressString p.address) sys =
          (some { peer := p.id },
            (match r with
              | .ok kv => Res.ok kv
              | .error err => Res.error err),
            ({ (sys.log (.openStream p.id)) with streams := sys.streams + 1 }).log
              (.query p.id (net.AddressString p.address))) := by
      intro r hr
      simp only [Peer.Query, hlive, Peer.OpenStream, hconn, hopen, hr]
      cases r <;> rfl
    constructor
    · have h := hq _ rfl
      simp only [Peer.Entry, hlive, hnone, h]
      cases hr : net.streamQuery ep (net.AddressString p.address) with
      | error err => simp [Sys.log]
      | ok okv =>
        cases okv with
        | none => simp [Sys.log, Stream.Close]
        | some kv =>
          simp only []
          cases hd : net.JsonToEntry kv.value with
          | error err => simp [Sys.log, Stream.Close]
          | ok e =>
            by_cases he : e.Address = p.address <;> simp [Sys.log, Stream.Close, he]
    · intro kv e hans hd
      have h := hq _ hans
      constructor
      · intro hne
        simp only [Peer.Entry, hlive, hnone, h, hd, ne_eq, hne, not_false_eq_true, if_true]
        exact ⟨by simp [Sys.log, Stream.Close], trivial⟩
      · intro heq
        simp only [Peer.Entry, hlive, hnone, h, hd, ne_eq, heq, not_true_eq_false, if_false]
        simp [Sys.log, Stream.Close]

/-- C7 (witness). Y answers the query for its own address with its own record: the
entry is cached and returned, and the stream is closed again. -/
theorem entry_postcondition_witness :
    freshY.Entry entryNet sys0 =
      (.ok (nodeEntry 2), { freshY with entry := some (nodeEntry 2) },
        { trace := [.openStream 0, .query 0 "zz", .closeStream 0], streams := 0,
          nextPeer := 0 }) :=
  (((entry_postcondition entryNet freshY sys0 rfl).2 rfl "host:2" rfl rfl).2
    (dht.NewKeyValue 2 [2, 2]) (nodeEntry 2) rfl rfl).2 rfl

/-- C8 (failing input). The peer opens the stream and the request on it fails.
`resolveStep` returns the error with one stream still open, after a failed query as
after a failed closest-set request, and so does `Entry`; no `closeStream` follows
the last `openStream`. -/
theorem streams_leak_on_request_error :
    (LocalPeer.resolveStep timeoutNet 1 localX sys0 (nodeEntry 2) 9).map
        (fun r => (r.1, r.2.2.streams, r.2.2.trace))
      = some (.error "timeout", 1,
          [.dial "host:2", .dhtInsert (dht.NewKeyValue 2 [2, 2]), .connectClient 0,
           .openStream 0, .query 0 "zzzzzzzzz"]) ∧
    (LocalPeer.resolveStep closestTimeoutNet 1 localX sys0 (nodeEntry 2) 9).map
        (fun r => (r.1, r.2.2.streams, r.2.2.trace))
      = some (.error "timeout", 1,
          [.dial "host:2", .dhtInsert (dht.NewKeyValue 2 [2, 2]), .connectClient 0,
           .openStream 0, .query 0 "zzzzzzzzz", .closeStream 0,
           .openStream 0, .findClosest 0 "zzzzzzzzz"]) ∧
    freshY.Entry timeoutNet sys0 =
      (.error "timeout", freshY,
        { trace := [.openStream 0, .query 0 "zz"], streams := 1, nextPeer := 0 }) ∧
    sys0.streams = 0 := by
  refine ⟨by decide, by decide, by decide, rfl⟩

/-- Candidates that are passed over do not change what the loop of `Resolve` does
with the rest. -/
theorem resolveLoop_skipped (net : Net)
    (step : LocalPeer → Sys → proto.Entry → dht.Address →
      Option (Res proto.Entry × LocalPeer × Sys))
    (target : dht.Address) (rest : List dht.KeyValue) :
    ∀ {pre : List dht.KeyValue} {lp lp1 : LocalPeer} {sys sys1 : Sys},
      Skipped net step target pre lp sys lp1 sys1 →
      resolveLoop net step target (pre ++ rest) lp sys
        = resolveLoop net step target rest lp1 sys1 := by
  intro pre lp lp1 sys sys1 h
  induction h with
  | nil lp sys => rfl
  | undecodable hd _ ih =>
    rw [List.cons_append]
    simp only [resolveLoop, hd]
    exact ih
  | stepError hd hs _ ih =>
    rw [List.cons_append]
    simp only [resolveLoop, hd, hs]
    exact ih
  | noMatch hd hs hne _ ih =>
    rw [List.cons_append]
    simp only [resolveLoop, hd, hs, hne, if_false]
    exact ih

/-- An error returned by the loop of `Resolve` is "Address could not be resolved", and
every candidate has been passed over. -/
theorem resolveLoop_error_inv (net : Net)
    (step : LocalPeer → Sys → proto.Entry → dht.Address →
      Option (Res proto.Entry × LocalPeer × Sys))
    (target : dht.Address) :
    ∀ (cs : List dht.KeyValue) (lp : LocalPeer) (sys : Sys) (msg : String)
      (lp' : LocalPeer) (sys' : Sys),
      resolveLoop net step target cs lp sys = some (.error msg, lp', sys') →
      msg = "Address could not be resolved" ∧ Skipped net step target cs lp sys lp' sys' := by
  intro cs
  induction cs with
  | nil =>
    intro lp sys msg lp' sys' h
    simp only [resolveLoop, Option.some.injEq, Prod.mk.injEq, Res.error.injEq] at h
    obtain ⟨hm, hl, hs⟩ := h
    subst hm hl hs
    exact ⟨rfl, Skipped.nil _ _⟩
  | cons c rest ih =>
    intro lp sys msg lp' sys' h
    cases hd : net.JsonToEntry c.value with
    | error err =>
      simp only [resolveLoop, hd] at h
      obtain ⟨hm, hsk⟩ := ih lp sys msg lp' sys' h
      exact ⟨hm, Skipped.undecodable hd hsk⟩
    | ok e =>
      cases hs : step lp sys e target with
      | none => simp [resolveLoop, hd, hs] at h
      | some r =>
        obtain ⟨r1, lp1, sys1⟩ := r
        cases r1 with
        | panic m => simp [resolveLoop, hd, hs] at h
        | error m =>
          simp only [resolveLoop, hd, hs] at h
          obtain ⟨hm, hsk⟩ := ih lp1 sys1 msg lp' sys' h
          exact ⟨hm, Skipped.stepError hd hs hsk⟩
        | ok entry =>
          by_cases ha : entry.Address = target
          · simp [resolveLoop, hd, hs, ha] at h
          · simp only [resolveLoop, hd, hs, ha, if_false] at h
            obtain ⟨hm, hsk⟩ := ih lp1 sys1 msg lp' sys' h
            exact ⟨hm, Skipped.noMatch hd hs ha hsk⟩

/-- An entry returned by the loop of `Resolve` is the one yielded by the step of a
candidate, it has the address of the target, and every candidate before that one
has been passed over. -/
theorem resolveLoop_ok_inv (net : Net)
    (step : LocalPeer → Sys → proto.Entry → dht.Address →
      Option (Res proto.Entry × LocalPeer × Sys))
    (target : dht.Address) :
    ∀ (cs : List dht.KeyValue) (lp : LocalPeer) (sys : Sys) (entry : proto.Entry)
      (lp' : LocalPeer) (sys' : Sys),
      resolveLoop net step target cs lp sys = some (.ok entry, lp', sys') →
      ∃ pre c post e lp1 sys1, cs = pre ++ c :: post ∧
        Skipped net step target pre lp sys lp1 sys1 ∧
        net.JsonToEntry c.value = .ok e ∧
        step lp1 sys1 e target = some (.ok entry, lp', sys') ∧
        entry.Address = target := by
  intro cs
  induction cs with
  | nil =>
    intro lp sys entry lp' sys' h
    simp [resolveLoop] at h
  | cons c rest ih =>
    intro lp sys entry lp' sys' h
    cases hd : net.JsonToEntry c.value with
    | error err =>
      simp only [resolveLoop, hd] at h
      obtain ⟨pre, c', post, e, lp1, sys1, hcs, hsk, hd', hs', ha⟩ := ih lp sys entry lp' sys' h
      exact ⟨c :: pre, c', post, e, lp1, sys1, by rw [hcs]; rfl,
        Skipped.undecodable hd hsk, hd', hs', ha⟩
    | ok e0 =>
      cases hs : step lp sys e0 target with
      | none => simp [resolveLoop, hd, hs] at h
      | some r =>
        obtain ⟨r1, lp0, sys0'⟩ := r
        cases r1 with
        | panic m => simp [resolveLoop, hd, hs] at h
        | error m =>
          simp only [resolveLoop, hd, hs] at h
          obtain ⟨pre, c', post, e, lp1, sys1, hcs, hsk, hd', hs', ha⟩ :=
            ih lp0 sys0' entry lp' sys' h
          exact ⟨c :: pre, c', post, e, lp1, sys1, by rw [hcs]; rfl,
            Skipped.stepError hd hs hsk, hd', hs', ha⟩
        | ok entry0 =>
          by_cases ha0 : entry0.Address = target
          · simp only [resolveLoop, hd, hs, ha0, if_true, Option.some.injEq, Prod.mk.injEq,
              Res.ok.injEq] at h
            obtain ⟨he, hl, hsys⟩ := h
            subst he hl hsys
            exact ⟨[], c, rest, e0, lp, sys, rfl, Skipped.nil _ _, hd, hs, ha0⟩
          · simp only [resolveLoop, hd, hs, ha0, if_false] at h
            obtain ⟨pre, c', post, e, lp1, sys1, hcs, hsk, hd', hs', ha⟩ :=
              ih lp0 sys0' entry lp' sys' h
            exact ⟨c :: pre, c', post, e, lp1, sys1, by rw [hcs]; rfl,
              Skipped.noMatch hd hs ha0 hsk, hd', hs', ha⟩

/-- C9. On a cache miss with closest set `closest`, `Resolve` walks the candidates in
the order of `closest`: when the candidates before `c` are passed over (payload
that does not decode, step that returns an error, step that yields an entry for
another address) and the step of `c` yields an entry with the address of the
target, `Resolve` returns that entry in the very state the step of `c` left, so
nothing after `c` is contacted; when all candidates are passed over it returns
"Address could not be resolved"; and it returns an entry or an error in no other
way. -/
theorem resolve_find_first (net : Net) (fuel : Nat) (lp : LocalPeer) (sys : Sys)
    (addr : String) (closest : List dht.KeyValue)
    (hself : addr ≠ net.AddressString lp.address)
    (hmiss : net.dhtQuery lp.DHT (net.DecodeAddress addr) = .ok none)
    (hclosest : net.dhtFindClosest lp.DHT (net.DecodeAddress addr) = .ok closest) :
    (∀ pre c post e entry lp1 sys1 lp2 sys2, closest = pre ++ c :: post →
      Skipped net (LocalPeer.resolveStep net fuel) (net.DecodeAddress addr) pre lp
        ((sys.log (.dhtQuery (net.DecodeAddress addr))).log
          (.dhtFindClosest (net.DecodeAddress addr))) lp1 sys1 →
      net.JsonToEntry c.value = .ok e →
      LocalPeer.resolveStep net fuel lp1 sys1 e (net.DecodeAddress addr)
        = some (.ok entry, lp2, sys2) →
      entry.Address = net.DecodeAddress addr →
      LocalPeer.Resolve net fuel lp sys addr = some (.ok entry, lp2, sys2)) ∧
    (∀ lp1 sys1,
      Skipped net (LocalPeer.resolveStep net fuel) (net.DecodeAddress addr) closest lp
        ((sys.log (.dhtQuery (net.DecodeAddress addr))).log
          (.dhtFindClosest (net.DecodeAddress addr))) lp1 sys1 →
      LocalPeer.Resolve net fuel lp sys addr
        = some (.error "Address could not be resolved", lp1, sys1)) ∧
    (∀ entry lp2 sys2, LocalPeer.Resolve net fuel lp sys addr = some (.ok entry, lp2, sys2) →
      ∃ pre c post e lp1 sys1, closest = pre ++ c :: post ∧
        Skipped net (LocalPeer.resolveStep net fuel) (net.DecodeAddress addr) pre lp
          ((sys.log (.dhtQuery (net.DecodeAddress addr))).log
            (.dhtFindClosest (net.DecodeAddress addr))) lp1 sys1 ∧
        net.JsonToEntry c.value = .ok e ∧
        LocalPeer.resolveStep net fuel lp1 sys1 e (net.DecodeAddress addr)
          = some (.ok entry, lp2, sys2) ∧
        entry.Address = net.DecodeAddress addr) ∧
    (∀ msg lp1 sys1, LocalPeer.Resolve net fuel lp sys addr = some (.error msg, lp1, sys1) →
      msg = "Address could not be resolved" ∧
      Skipped net (LocalPeer.resolveStep net fuel) (net.DecodeAddress addr) closest lp
        ((sys.log (.dhtQuery (net.DecodeAddress addr))).log
          (.dhtFindClosest (net.DecodeAddress addr))) lp1 sys1) := by
  have hres : LocalPeer.Resolve net fuel lp sys addr =
      resolveLoop net (LocalPeer.resolveStep net fuel) (net.DecodeAddress addr) closest lp
        ((sys.log (.dhtQuery (net.DecodeAddress addr))).log
          (.dhtFindClosest (net.DecodeAddress addr))) := by
    simp only [LocalPeer.Resolve, hself, if_false, hmiss, hclosest]
  refine ⟨?_, ?_, ?_, ?_⟩
  · intro pre c post e entry lp1 sys1 lp2 sys2 hsplit hsk hd hs ha
    rw [hres, hsplit, resolveLoop_skipped net _ _ (c :: post) hsk]
    simp only [resolveLoop, hd, hs, ha, if_true]
  · intro lp1 sys1 hsk
    have h := resolveLoop_skipped net _ _ [] hsk
    rw [List.append_nil] at h
    rw [hres, h]
    rfl
  · intro entry lp2 sys2 h
    rw [hres] at h
    exact resolveLoop_ok_inv net _ _ closest lp _ entry lp2 sys2 h
  · intro msg lp1 sys1 h
    rw [hres] at h
    exact resolveLoop_error_inv net _ _ closest lp _ msg lp1 sys1 h

/-- C9 (witness). The local DHT hands out a record that does not decode, then Y, Z and
a fourth node. The first record is skipped; the step of Y yields the entry of Z,
whose address is not the target, and is passed over; the step of Z yields the entry
of the target 9, which `Resolve` returns. -/
theorem resolve_find_first_witness :
    ∃ lp2 sys2, LocalPeer.Resolve wideNet 2 localWide sys0 "zzzzzzzzz"
      = some (.ok (nodeEntry 9), lp2, sys2) :=
  ⟨_, _, (resolve_find_first wideNet 2 localWide sys0 "zzzzzzzzz" localWide.DHT
      (by decide) rfl rfl).1
    [dht.NewKeyValue 5 [0], dht.NewKeyValue 2 [2, 2]] (dht.NewKeyValue 3 [3, 3])
    [dht.NewKeyValue 4 [4, 4]] (nodeEntry 3) _ _ _ _ _ rfl
    (@Skipped.undecodable _ _ _ _ _ _ _ _ _ "invalid entry" rfl
      (@Skipped.noMatch _ _ _ _ _ _ _ _ _ _ _ (nodeEntry 2) (nodeEntry 3) rfl rfl (by decide)
        (Skipped.nil _ _)))
    rfl rfl rfl⟩

/-- C10 (failing input). The known seed list `[5, 5]` holds a duplicate and the seed 5
answers with an empty list: the merged list `[5]` is shorter than the known one, no
seed is new, and the tick replaces the stored list and inserts the record into the
DHT. -/
theorem seed_shrink_is_persisted :
    MergeSeeds [5, 5] [] = [5] ∧
    (MergeSeeds [5, 5] []).length < ([5, 5] : List dht.Address).length ∧
    ((seedManager [5, 5]).findStep (seedEnv []) 5).entry.Seeds = [5] ∧
    ((seedManager [5, 5]).findStep (seedEnv []) 5).inserts = [dht.NewKeyValue 7 [7, 5]] ∧
    ((seedManager [5, 5]).findStep (seedEnv []) 5).DHT = [dht.NewKeyValue 7 [7, 5]] := by
  refine ⟨by decide, by decide, by decide, by decide, by decide⟩

/-- The gate of the tick, for every merge function. For a seed `i` that is contacted
and answers with `qResult`: when the merge of the known seed list with the remote one
has the length of the known list, nothing changes (no insert); when the lengths
differ, longer or shorter, the stored list is replaced by the merge and, if the entry
encodes, exactly one record for the tracked entry is inserted into the DHT (none if
it does not encode); so an insert happens only when the lengths differ. -/
theorem seed_persist_on_length_change (env : SeedEnv) (sm : SeedManager) (i : dht.Address)
    (s es : String) (entry qResult : proto.Entry)
    (hi : i ≠ sm.localAddress)
    (hs : env.AddressString i = .ok s)
    (hc : env.ConnectPeer i = .ok entry)
    (hes : env.AddressString entry.Address = .ok es)
    (hq : env.peerQuery i sm.entry.Address = .ok qResult) :
    ((env.MergeSeeds sm.entry.Seeds qResult.Seeds).length = sm.entry.Seeds.length →
      sm.findStep env i = sm) ∧
    ((env.MergeSeeds sm.entry.Seeds qResult.Seeds).length ≠ sm.entry.Seeds.length →
      (sm.findStep env i).entry
        = { sm.entry with Seeds := env.MergeSeeds sm.entry.Seeds qResult.Seeds } ∧
      (∀ encoded,
        env.Encode { sm.entry with Seeds := env.MergeSeeds sm.entry.Seeds qResult.Seeds }
          = .ok encoded →
        (sm.findStep env i).inserts
          = sm.inserts ++ [dht.NewKeyValue sm.entry.Address encoded] ∧
        (sm.findStep env i).DHT
          = env.dhtInsert sm.DHT (dht.NewKeyValue sm.entry.Address encoded)) ∧
      (∀ err,
        env.Encode { sm.entry with Seeds := env.MergeSeeds sm.entry.Seeds qResult.Seeds }
          = .error err →
        (sm.findStep env i).inserts = sm.inserts ∧ (sm.findStep env i).DHT = sm.DHT)) ∧
    ((sm.findStep env i).inserts ≠ sm.inserts →
      (env.MergeSeeds sm.entry.Seeds qResult.Seeds).length ≠ sm.entry.Seeds.length) := by
  have hstep : sm.findStep env i = sm.mergeResult env qResult := by
    simp only [SeedManager.findStep, hi, if_false, hs, hc, hes, hq]
  have heq : (env.MergeSeeds sm.entry.Seeds qResult.Seeds).length = sm.entry.Seeds.length →
      sm.findStep env i = sm := by
    intro h
    rw [hstep]
    simp [SeedManager.mergeResult, h]
  refine ⟨heq, ?_, ?_⟩
  · intro hne
    rw [hstep]
    refine ⟨?_, ?_, ?_⟩
    · simp only [SeedManager.mergeResult, ne_eq, hne, not_false_eq_true, if_true]
      cases env.Encode { sm.entry with Seeds := env.MergeSeeds sm.entry.Seeds qResult.Seeds }
        <;> rfl
    · intro encoded henc
      simp [SeedManager.mergeResult, hne, henc, dht.NewKeyValue]
    · intro err henc
      simp [SeedManager.mergeResult, hne, henc]
  · intro hins hlen
    exact hins (by rw [heq hlen])

/-- The known seed list is `[5]` and the seed 5 answers with `[6]`: the merge `[5, 6]`
is longer, it replaces the stored list and one record is inserted. -/
theorem seed_persist_on_length_change_witness :
    ((seedManager [5]).findStep (seedEnv [6]) 5).entry = { nodeEntry 7 with Seeds := [5, 6] } ∧
    ((seedManager [5]).findStep (seedEnv [6]) 5).inserts = [dht.NewKeyValue 7 [7, 5, 6]] :=
  have h := (seed_persist_on_length_change (seedEnv [6]) (seedManager [5]) 5 "zzzzz" "zzzzz"
    (nodeEntry 5) { nodeEntry 7 with Seeds := [6] } (by decide) rfl rfl rfl rfl).2.1
    (by decide)
  ⟨h.1, (h.2.1 [7, 5, 6] rfl).1⟩

/-- The loop of `seedExplore` appends to the queue, in order, the records whose key is
not the local address. -/
theorem seedExploreLoop_eq (address : dht.Address) :
    ∀ (cs queue : List dht.KeyValue),
      seedExploreLoop address cs queue
        = queue ++ cs.filter (fun kv => decide (kv.key ≠ address)) := by
  intro cs
  induction cs with
  | nil => intro queue; simp [seedExploreLoop]
  | cons c rest ih =>
    intro queue
    by_cases h : c.key = address
    · simp [seedExploreLoop, h, ih]
    · simp [seedExploreLoop, h, ih]

/-- C11. For a `KeyValue` delivered to the loop of `StartExploring`: when its key is
the local address nothing changes (DHT, queue, effects); otherwise it is inserted
into the DHT, and the queue receives it when the DHT did not hold its key before the
insertion and stays as it was when the DHT did. And whatever `seedExplore` adds to
the queue has a key other than the local address. -/
theorem explore_feedback (net : Net) (lp : LocalPeer) (sys : Sys)
    (queue : List dht.KeyValue) (i : dht.KeyValue) :
    (i.key = lp.address → lp.exploreStep net sys queue i = (lp, sys, queue)) ∧
    (i.key ≠ lp.address →
      (lp.exploreStep net sys queue i).1 = { lp with DHT := net.dhtInsert lp.DHT i } ∧
      (lp.exploreStep net sys queue i).2.1.trace = sys.trace ++ [.dhtInsert i] ∧
      (net.dhtHas lp.DHT i.key = false →
        (lp.exploreStep net sys queue i).2.2 = queue ++ [i]) ∧
      (net.dhtHas lp.DHT i.key = true →
        (lp.exploreStep net sys queue i).2.2 = queue)) ∧
    (∀ random q' sys', lp.seedExplore net sys random queue = (.ok q', sys') →
      ∃ added, q' = queue ++ added ∧ ∀ kv ∈ added, kv.key ≠ lp.address) := by
  refine ⟨?_, ?_, ?_⟩
  · intro h
    simp [LocalPeer.exploreStep, h]
  · intro h
    cases hh : net.dhtHas lp.DHT i.key <;> simp [LocalPeer.exploreStep, h, hh, Sys.log]
  · intro random q' sys' h
    unfold LocalPeer.seedExplore at h
    cases hc : net.dhtFindClosest lp.DHT lp.address with
    | error err => simp [hc] at h
    | ok closest =>
      cases random with
      | none => simp [hc] at h
      | some addr =>
        simp only [hc, Prod.mk.injEq, Res.ok.injEq] at h
        obtain ⟨hq, _⟩ := h
        rw [seedExploreLoop_eq] at hq
        refine ⟨_, hq.symm, ?_⟩
        intro kv hkv
        simpa using (List.mem_filter.mp hkv).2

/-- C11 (witness). The job delivers the record of Z, which the DHT of X does not hold:
it is inserted and put on the queue. -/
theorem explore_feedback_witness :
    (localX.exploreStep demoNet sys0 [] (dht.NewKeyValue 3 [3, 3])).1.DHT
        = [dht.NewKeyValue 3 [3, 3], dht.NewKeyValue 2 [2, 2]] ∧
    (localX.exploreStep demoNet sys0 [] (dht.NewKeyValue 3 [3, 3])).2.2
        = [dht.NewKeyValue 3 [3, 3]] :=
  have h := (explore_feedback demoNet localX sys0 [] (dht.NewKeyValue 3 [3, 3])).2.1
    (by decide)
  ⟨congrArg LocalPeer.DHT h.1, h.2.2.1 rfl⟩

/-- C12. `Resolve` applied to the string of the local address returns the local entry
with no error, whatever the state and the fuel, and leaves the state and the record
of effects as they were: no DHT access, no dial, no request. -/
theorem resolve_local_address (net : Net) (fuel : Nat) (lp : LocalPeer) (sys : Sys) :
    LocalPeer.Resolve net fuel lp sys (net.AddressString lp.address)
      = some (.ok lp.Entry, lp, sys) := by
  simp [LocalPeer.Resolve]

/-- C13. For a target other than the local address for which `DHT.Query` returns a
record, `Resolve` returns the entry decoded from the payload of that record, or the
decode error; the registry and the DHT are untouched and the only effect is the
DHT query: no `FindClosest`, no dial, no request to a peer. -/
theorem resolve_cache_hit (net : Net) (fuel : Nat) (lp : LocalPeer) (sys : Sys)
    (addr : String) (kv : dht.KeyValue)
    (hself : addr ≠ net.AddressString lp.address)
    (hhit : net.dhtQuery lp.DHT (net.DecodeAddress addr) = .ok (some kv)) :
    LocalPeer.Resolve net fuel lp sys addr
      = some
          ((match net.JsonToEntry kv.value with
            | .ok entry => Res.ok entry
            | .error err => Res.error err),
           lp,
           { sys with trace := sys.trace ++ [.dhtQuery (net.DecodeAddress addr)] }) := by
  simp only [LocalPeer.Resolve, hself, if_false, hhit]
  cases net.JsonToEntry kv.value <;> rfl

/-- C13 (witness). The DHT of X holds the record of Y: `Resolve` of the address of Y
returns the entry of Y after the DHT query alone, with no fuel at all. -/
theorem resolve_cache_hit_witness :
    LocalPeer.Resolve demoNet 0 localX sys0 "zz"
      = some (.ok (nodeEntry 2), localX,
          { trace := [.dhtQuery 2], streams := 0, nextPeer := 0 }) :=
  resolve_cache_hit demoNet 0 localX sys0 "zz" (dht.NewKeyValue 2 [2, 2]) (by decide) rfl

end Zif
